import Mathlib

/-!
Verification of the CodeSage broker (src/broker/): the newline-delimited JSON
protocol codec (utils.py), the connection handler and request dispatch
(handlers.py), and the backend selection and streaming logic (model_manager.py).

Python strings are modelled as lists of Unicode code points (`PyStr := List Nat`),
because CPython `str` may carry lone surrogate code points (0xD800-0xDFFF), and
the `json` module's escape/unescape behaviour on surrogates is observable through
`encode_message`/`decode_message`.  JSON numbers are restricted to integers:
floating-point payloads are outside the embedding (binary floating point is not
shallowly embeddable), and no theorem below depends on float behaviour.
-/

namespace Broker

/-- A Python `str`: a finite sequence of Unicode code points (< 0x110000),
including, possibly, surrogate code points, which CPython strings allow. -/
abbrev PyStr : Type := List Nat

/-- Code points of a Lean string literal, for writing the Python string
constants of the source (`"ping"`, `"stream"`, ...). -/
def lit (s : String) : PyStr := s.toList.map Char.toNat

/-- A JSON value, as produced by `json.loads` and consumed by `json.dumps`
(src/broker/utils.py).  Numbers are integers only (see the header note);
object members keep insertion order, as CPython dicts do. -/
inductive Json where
  | null
  | bool (b : Bool)
  | num (n : Int)
  | str (s : List Nat)
  | arr (elems : List Json)
  | obj (members : List (List Nat × Json))
deriving Repr

/-- A Python dict mapping `str` keys to decoded JSON values (the shape of a
decoded request in handlers.py).  Key uniqueness is an invariant of CPython
dicts, carried as a hypothesis where it matters. -/
abbrev PyDict : Type := List (PyStr × Json)

mutual
/-- Structural decidable equality for `Json` (needed to evaluate the codec
theorems on concrete payloads). -/
def Json.deq : (a b : Json) → Decidable (a = b)
  | .null, .null => isTrue rfl
  | .null, .bool _ | .null, .num _ | .null, .str _ | .null, .arr _ | .null, .obj _ =>
      isFalse (by intro h; cases h)
  | .bool _, .null | .bool _, .num _ | .bool _, .str _ | .bool _, .arr _ | .bool _, .obj _ =>
      isFalse (by intro h; cases h)
  | .num _, .null | .num _, .bool _ | .num _, .str _ | .num _, .arr _ | .num _, .obj _ =>
      isFalse (by intro h; cases h)
  | .str _, .null | .str _, .bool _ | .str _, .num _ | .str _, .arr _ | .str _, .obj _ =>
      isFalse (by intro h; cases h)
  | .arr _, .null | .arr _, .bool _ | .arr _, .num _ | .arr _, .str _ | .arr _, .obj _ =>
      isFalse (by intro h; cases h)
  | .obj _, .null | .obj _, .bool _ | .obj _, .num _ | .obj _, .str _ | .obj _, .arr _ =>
      isFalse (by intro h; cases h)
  | .bool a, .bool b =>
      if h : a = b then isTrue (by rw [h]) else isFalse (by intro hc; cases hc; exact h rfl)
  | .num a, .num b =>
      if h : a = b then isTrue (by rw [h]) else isFalse (by intro hc; cases hc; exact h rfl)
  | .str a, .str b =>
      if h : a = b then isTrue (by rw [h]) else isFalse (by intro hc; cases hc; exact h rfl)
  | .arr a, .arr b =>
      match Json.deqList a b with
      | isTrue h => isTrue (by rw [h])
      | isFalse h => isFalse (by intro hc; cases hc; exact h rfl)
  | .obj a, .obj b =>
      match Json.deqMembers a b with
      | isTrue h => isTrue (by rw [h])
      | isFalse h => isFalse (by intro hc; cases hc; exact h rfl)

/-- Decidable equality on JSON array elements. -/
def Json.deqList : (a b : List Json) → Decidable (a = b)
  | [], [] => isTrue rfl
  | [], _ :: _ => isFalse (by intro h; cases h)
  | _ :: _, [] => isFalse (by intro h; cases h)
  | x :: xs, y :: ys =>
      match Json.deq x y with
      | isFalse h => isFalse (by intro hc; cases hc; exact h rfl)
      | isTrue h1 =>
          match Json.deqList xs ys with
          | isTrue h2 => isTrue (by rw [h1, h2])
          | isFalse h2 => isFalse (by intro hc; cases hc; exact h2 rfl)

/-- Decidable equality on JSON object member lists. -/
def Json.deqMembers : (a b : List (List Nat × Json)) → Decidable (a = b)
  | [], [] => isTrue rfl
  | [], _ :: _ => isFalse (by intro h; cases h)
  | _ :: _, [] => isFalse (by intro h; cases h)
  | (k, v) :: xs, (k2, v2) :: ys =>
      if hk : k = k2 then
        match Json.deq v v2 with
        | isFalse h => isFalse (by intro hc; cases hc; exact h rfl)
        | isTrue h1 =>
            match Json.deqMembers xs ys with
            | isTrue h2 => isTrue (by rw [hk, h1, h2])
            | isFalse h2 => isFalse (by intro hc; cases hc; exact h2 rfl)
      else isFalse (by intro hc; cases hc; exact hk rfl)
end

instance : DecidableEq Json := Json.deq

instance : DecidableEq PyDict := inferInstanceAs (DecidableEq (List (PyStr × Json)))

/-- Python truthiness (`bool(x)`) on decoded JSON values: `None`, `False`, `0`,
`""`, `[]`, `{}` are falsy, everything else truthy. -/
def truthy : Json → Bool
  | .null => false
  | .bool b => b
  | .num n => decide (n ≠ 0)
  | .str s => decide (s ≠ [])
  | .arr xs => decide (xs ≠ [])
  | .obj kvs => decide (kvs ≠ [])

/-- `d.get(k)` on a dict: `some v` when the key is stored (even if the stored
value is JSON null), `none` when the key is absent. -/
def pyGetOpt (d : PyDict) (k : PyStr) : Option Json :=
  (d.find? (fun kv => kv.1 = k)).map (fun kv => kv.2)

/-- `d.get(k)` as the Python expression evaluates: the stored value, or `None`
(modelled `Json.null`) when absent.  This collapses a stored JSON null and an
absent key, exactly as CPython's `dict.get` does. -/
def pyGet (d : PyDict) (k : PyStr) : Json :=
  (pyGetOpt d k).getD Json.null

/-- `d.get(k, default)`: the stored value (even a stored null), else `default`. -/
def pyGetD (d : PyDict) (k : PyStr) (dflt : Json) : Json :=
  (pyGetOpt d k).getD dflt

/-- Removal of a key, as `d.pop(k, ...)` leaves the dict.  Dict keys are unique,
so removing every occurrence from the association list coincides with removing
the single stored entry. -/
def dictPopKey (d : PyDict) (k : PyStr) : PyDict :=
  d.filter (fun kv => decide (kv.1 ≠ k))

/-! ### `json.dumps` with `separators=(",", ":")` and the default `ensure_ascii=True`
(the serializer used by `encode_message`, src/broker/utils.py line 34).
Output is pure ASCII: every code point outside 0x20..0x7E is `\uXXXX`-escaped,
astral code points as a UTF-16 surrogate pair of escapes. -/

/-- Lowercase hex digit code point of `n < 16`, as printf `%04x` emits. -/
def hexDigit (n : Nat) : Nat :=
  if n < 10 then 48 + n else 97 + (n - 10)

/-- A `\uXXXX` escape (6 code points) for `u < 0x10000`. -/
def uEscape (u : Nat) : List Nat :=
  [92, 117, hexDigit (u / 4096 % 16), hexDigit (u / 256 % 16),
   hexDigit (u / 16 % 16), hexDigit (u % 16)]

/-- `json.dumps` escaping of one code point under `ensure_ascii=True`: the
short named escapes, printable ASCII verbatim, everything else (controls,
non-ASCII, lone surrogates) as `\uXXXX`, astral code points as a surrogate
pair of escapes. -/
def escapeChar (c : Nat) : List Nat :=
  if c = 34 then [92, 34]
  else if c = 92 then [92, 92]
  else if c = 8 then [92, 98]
  else if c = 12 then [92, 102]
  else if c = 10 then [92, 110]
  else if c = 13 then [92, 114]
  else if c = 9 then [92, 116]
  else if 32 ≤ c ∧ c ≤ 126 then [c]
  else if c < 65536 then uEscape c
  else uEscape (55296 + (c - 65536) / 1024) ++ uEscape (56320 + (c - 65536) % 1024)

/-- Decimal digit code points of a natural number, most significant first,
by recursion on a fuel bound (a number has at most `n + 1` digits, so
`natDecimal` always supplies enough). -/
def natDecimalAux (fuel n : Nat) : List Nat :=
  match fuel with
  | 0 => []
  | fuel + 1 => if n < 10 then [48 + n] else natDecimalAux fuel (n / 10) ++ [48 + n % 10]

/-- Decimal digit code points of a natural number, most significant first. -/
def natDecimal (n : Nat) : List Nat := natDecimalAux (n + 1) n

/-- Decimal rendering of a Python `int` (`repr`): optional minus sign, digits,
no leading zeros. -/
def intDecimal (i : Int) : List Nat :=
  (if i < 0 then [45] else []) ++ natDecimal i.natAbs

mutual
/-- Compact JSON text of a value, as `json.dumps(v, separators=(",", ":"))`
produces it (insertion order of dict members preserved). -/
def Json.render : Json → List Nat
  | .null => lit "null"
  | .bool true => lit "true"
  | .bool false => lit "false"
  | .num n => intDecimal n
  | .str s => 34 :: (s.flatMap escapeChar ++ [34])
  | .arr es => 91 :: (Json.renderItems es ++ [93])
  | .obj ms => 123 :: (Json.renderMembers ms ++ [125])

/-- Comma-joined renderings of array elements. -/
def Json.renderItems : List Json → List Nat
  | [] => []
  | e :: es => Json.render e ++ Json.renderItemsTail es

/-- Continuation of `renderItems` after the first element. -/
def Json.renderItemsTail : List Json → List Nat
  | [] => []
  | e :: es => 44 :: (Json.render e ++ Json.renderItemsTail es)

/-- Comma-joined `"key":value` renderings of object members. -/
def Json.renderMembers : List (List Nat × Json) → List Nat
  | [] => []
  | (k, v) :: ms =>
      (34 :: (k.flatMap escapeChar ++ [34])) ++ 58 :: (Json.render v ++ Json.renderMembersTail ms)

/-- Continuation of `renderMembers` after the first member. -/
def Json.renderMembersTail : List (List Nat × Json) → List Nat
  | [] => []
  | (k, v) :: ms =>
      44 :: ((34 :: (k.flatMap escapeChar ++ [34])) ++ 58 :: (Json.render v ++ Json.renderMembersTail ms))
end

/-- UTF-8 bytes of one scalar code point.  (`str.encode("utf-8")` raises on
surrogates; `json.dumps` output is pure ASCII, so `encode_message` only ever
exercises the one-byte branch.) -/
def utf8EncodeChar (c : Nat) : List Nat :=
  if c < 128 then [c]
  else if c < 2048 then [192 + c / 64, 128 + c % 64]
  else if c < 65536 then [224 + c / 4096, 128 + c / 64 % 64, 128 + c % 64]
  else [240 + c / 262144, 128 + c / 4096 % 64, 128 + c / 64 % 64, 128 + c % 64]

/-- `str.encode("utf-8")` over a code-point sequence. -/
def utf8Encode (s : List Nat) : List Nat := s.flatMap utf8EncodeChar

/-- `encode_message` (src/broker/utils.py lines 32-34): serialize the payload
dict to compact JSON, append a newline, encode as UTF-8. -/
def encode_message (payload : PyDict) : List Nat :=
  utf8Encode (Json.render (Json.obj payload) ++ [10])

/-! ### `bytes.decode("utf-8")`, `str.strip()` and `json.loads`
(the deserializer chain of `decode_message`, src/broker/utils.py lines 37-42). -/

/-- Python `str.isspace()` code points (the set `str.strip()` removes). -/
def pyIsSpace (c : Nat) : Bool :=
  (9 ≤ c && c ≤ 13) || (28 ≤ c && c ≤ 32) || c = 133 || c = 160 || c = 5760 ||
  (8192 ≤ c && c ≤ 8202) || c = 8232 || c = 8233 || c = 8239 || c = 8287 || c = 12288

/-- `s.strip()`: remove leading and trailing whitespace code points. -/
def pyStrip (s : List Nat) : List Nat :=
  ((s.dropWhile pyIsSpace).reverse.dropWhile pyIsSpace).reverse

/-- Is `b` a UTF-8 continuation byte (0x80..0xBF)? -/
def utf8Cont (b : Nat) : Bool := 128 ≤ b && b ≤ 191

/-- Strict UTF-8 decoding of a byte sequence to code points, as
`bytes.decode("utf-8")`: rejects truncated sequences, stray continuation
bytes, overlong forms, encoded surrogates and code points above 0x10FFFF
(raising `UnicodeDecodeError`, modelled as `none`). -/
def utf8Decode : List Nat → Option (List Nat)
  | [] => some []
  | b0 :: rest =>
    if b0 < 128 then (utf8Decode rest).map (fun t => b0 :: t)
    else if 194 ≤ b0 && b0 ≤ 223 then
      match rest with
      | b1 :: rest2 =>
        if utf8Cont b1 then
          (utf8Decode rest2).map (fun t => ((b0 - 192) * 64 + (b1 - 128)) :: t)
        else none
      | [] => none
    else if 224 ≤ b0 && b0 ≤ 239 then
      match rest with
      | b1 :: b2 :: rest2 =>
        if ((if b0 = 224 then 160 else 128) ≤ b1 && b1 ≤ (if b0 = 237 then 159 else 191))
            && utf8Cont b2 then
          (utf8Decode rest2).map
            (fun t => ((b0 - 224) * 4096 + (b1 - 128) * 64 + (b2 - 128)) :: t)
        else none
      | _ => none
    else if 240 ≤ b0 && b0 ≤ 244 then
      match rest with
      | b1 :: b2 :: b3 :: rest2 =>
        if ((if b0 = 240 then 144 else 128) ≤ b1 && b1 ≤ (if b0 = 244 then 143 else 191))
            && utf8Cont b2 && utf8Cont b3 then
          (utf8Decode rest2).map
            (fun t =>
              ((b0 - 240) * 262144 + (b1 - 128) * 4096 + (b2 - 128) * 64 + (b3 - 128)) :: t)
        else none
      | _ => none
    else none

/-- Value of a hex digit code point, as the `\uXXXX` unescape accepts it. -/
def hexVal (c : Nat) : Option Nat :=
  if 48 ≤ c && c ≤ 57 then some (c - 48)
  else if 97 ≤ c && c ≤ 102 then some (c - 87)
  else if 65 ≤ c && c ≤ 70 then some (c - 55)
  else none

/-- Value of four hex digit code points. -/
def hex4 (a b c d : Nat) : Option Nat :=
  match hexVal a, hexVal b, hexVal c, hexVal d with
  | some x, some y, some z, some w => some (((x * 16 + y) * 16 + z) * 16 + w)
  | _, _, _, _ => none

/-- The single-character JSON string escapes `json.loads` accepts. -/
def escDecode (e : Nat) : Option Nat :=
  if e = 34 then some 34
  else if e = 92 then some 92
  else if e = 47 then some 47
  else if e = 98 then some 8
  else if e = 102 then some 12
  else if e = 110 then some 10
  else if e = 114 then some 13
  else if e = 116 then some 9
  else none

/-- A UTF-16 high surrogate (0xD800..0xDBFF). -/
def isHighSurr (u : Nat) : Bool := 55296 ≤ u && u ≤ 56319

/-- A UTF-16 low surrogate (0xDC00..0xDFFF). -/
def isLowSurr (u : Nat) : Bool := 56320 ≤ u && u ≤ 57343

/-- The code point a surrogate pair denotes. -/
def surrPair (u u2 : Nat) : Nat := 65536 + (u - 55296) * 1024 + (u2 - 56320)

mutual
/-- The string scanner of `json.loads` after an opening quote, in strict mode:
raw control characters are rejected; a `\uXXXX` escape that decodes to a high
surrogate hands over to `parseStrHigh` for the pair lookahead (CPython
`py_scanstring`); lone surrogates are kept.  Returns the string and the
remainder after the closing quote.  Recursion is on a fuel bound; every step
consumes at least one code point, so `parseStr` below supplies enough for any
input. -/
def parseStrBody (fuel : Nat) (acc : List Nat) (s : List Nat) :
    Except Unit (List Nat × List Nat) :=
  match fuel with
  | 0 => .error ()
  | fuel + 1 =>
    match s with
    | 34 :: rest => .ok (acc.reverse, rest)
    | 92 :: 117 :: a :: b :: c :: d :: rest =>
      match hex4 a b c d with
      | none => .error ()
      | some u =>
        if isHighSurr u then parseStrHigh fuel acc u rest
        else parseStrBody fuel (u :: acc) rest
    | 92 :: e :: rest =>
      match escDecode e with
      | some ch => parseStrBody fuel (ch :: acc) rest
      | none => .error ()
    | [92] => .error ()
    | c :: rest => if c < 32 then .error () else parseStrBody fuel (c :: acc) rest
    | [] => .error ()

/-- The scanner right after a `\uXXXX` escape that decoded to the high
surrogate `u`: if another `\uXXXX` escape follows and decodes to a low
surrogate, the pair becomes one astral code point; a following `\u` with fewer
than four hex digits raises; otherwise the lone `u` is kept and scanning
resumes where it stood. -/
def parseStrHigh (fuel : Nat) (acc : List Nat) (u : Nat) (s : List Nat) :
    Except Unit (List Nat × List Nat) :=
  match fuel with
  | 0 => .error ()
  | fuel + 1 =>
    match s with
    | 92 :: 117 :: a2 :: b2 :: c2 :: d2 :: rest2 =>
      match hex4 a2 b2 c2 d2 with
      | none => .error ()
      | some u2 =>
        if isLowSurr u2 then parseStrBody fuel (surrPair u u2 :: acc) rest2
        else parseStrBody fuel (u :: acc) (92 :: 117 :: a2 :: b2 :: c2 :: d2 :: rest2)
    | 92 :: 117 :: _ => .error ()
    | other => parseStrBody fuel (u :: acc) other
end

/-- The string scanner from the opening quote, with ample fuel. -/
def parseStr (s : List Nat) : Except Unit (List Nat × List Nat) :=
  parseStrBody (s.length + 1) [] s

/-- A maximal run of decimal digit code points, and the remainder. -/
def takeDigits : List Nat → List Nat × List Nat
  | c :: cs =>
    if 48 ≤ c && c ≤ 57 then
      let p := takeDigits cs
      (c :: p.1, p.2)
    else ([], c :: cs)
  | [] => ([], [])

/-- Numeric value of a run of decimal digit code points. -/
def digitsVal (ds : List Nat) : Nat := ds.foldl (fun acc c => acc * 10 + (c - 48)) 0

/-- The integer part of the JSON number grammar, `(0|[1-9]\d*)`: a bare zero,
or a nonzero leading digit followed by a digit run. -/
def parseIntDigits : List Nat → Option (Nat × List Nat)
  | 48 :: cs => some (0, cs)
  | c :: cs =>
    if 49 ≤ c && c ≤ 57 then
      let p := takeDigits cs
      some (digitsVal (c :: p.1), p.2)
    else none
  | [] => none

/-- Would the remainder begin an exponent digit run (`[-+]?\d`)? -/
def expDigitFollows : List Nat → Bool
  | [] => false
  | c :: rest =>
    if c = 43 || c = 45 then
      match rest with
      | d :: _ => 48 ≤ d && d ≤ 57
      | [] => false
    else 48 ≤ c && c ≤ 57

/-- Would the number regex extend the match with a fraction (`\.\d+`) or
exponent (`[eE][-+]?\d+`) group?  Such a literal is a Python float, outside
the integer fragment this embedding covers. -/
def floatFollows : List Nat → Bool
  | [] => false
  | c :: rest =>
    if c = 46 then
      match rest with
      | d :: _ => 48 ≤ d && d ≤ 57
      | [] => false
    else if c = 101 || c = 69 then expDigitFollows rest
    else false

/-- The number scanner of `json.loads`, restricted to the integer fragment:
optional minus sign, then `(0|[1-9]\d*)`; a fraction or exponent continuation
(a float literal) is outside the embedding and modelled as a failure. -/
def parseNum : List Nat → Except Unit (Int × List Nat)
  | 45 :: cs =>
    match parseIntDigits cs with
    | some (n, rest) => if floatFollows rest then .error () else .ok (-(n : Int), rest)
    | none => .error ()
  | cs =>
    match parseIntDigits cs with
    | some (n, rest) => if floatFollows rest then .error () else .ok ((n : Int), rest)
    | none => .error ()

/-- Insert-or-overwrite on an association list: an existing key keeps its
position and takes the new value, a new key is appended.  This is how
`dict(pairs)` treats duplicate keys (first position, last value). -/
def dictUpsert (d : List (List Nat × Json)) (k : List Nat) (v : Json) :
    List (List Nat × Json) :=
  match d with
  | [] => [(k, v)]
  | (k0, v0) :: rest => if k0 = k then (k0, v) :: rest else (k0, v0) :: dictUpsert rest k v

/-- `dict(pairs)`: fold the parsed member list into a dict. -/
def dictify (pairs : List (List Nat × Json)) : List (List Nat × Json) :=
  pairs.foldl (fun d kv => dictUpsert d kv.1 kv.2) []

/-- JSON document whitespace (the only code points `json.loads` itself skips;
`decode_message` additionally strips Python whitespace at both ends first). -/
def jsonWs (c : Nat) : Bool := c = 32 || c = 9 || c = 10 || c = 13

/-- Skip JSON document whitespace. -/
def skipJsonWs (s : List Nat) : List Nat := s.dropWhile jsonWs

mutual
/-- One JSON value, by recursion on a fuel bound (every recursive call
decrements it; `loads` supplies input length + 1, ample for every value the
grammar accepts).  Mirrors the CPython scanner over the integer fragment;
the `NaN`/`Infinity` extensions and float literals are outside the embedding. -/
def parseVal : Nat → List Nat → Except Unit (Json × List Nat)
  | 0, _ => .error ()
  | fuel + 1, cs =>
    match skipJsonWs cs with
    | 110 :: 117 :: 108 :: 108 :: rest => .ok (.null, rest)
    | 116 :: 114 :: 117 :: 101 :: rest => .ok (.bool true, rest)
    | 102 :: 97 :: 108 :: 115 :: 101 :: rest => .ok (.bool false, rest)
    | 34 :: rest =>
      match parseStr rest with
      | .ok (s, rest2) => .ok (.str s, rest2)
      | .error e => .error e
    | 91 :: rest =>
      match skipJsonWs rest with
      | 93 :: rest2 => .ok (.arr [], rest2)
      | other =>
        match parseItems fuel other with
        | .ok (es, rest2) => .ok (.arr es, rest2)
        | .error e => .error e
    | 123 :: rest =>
      match skipJsonWs rest with
      | 125 :: rest2 => .ok (.obj [], rest2)
      | other =>
        match parseMembers fuel other with
        | .ok (ms, rest2) => .ok (.obj (dictify ms), rest2)
        | .error e => .error e
    | c :: rest =>
      if c = 45 || (48 ≤ c && c ≤ 57) then
        match parseNum (c :: rest) with
        | .ok (n, rest2) => .ok (.num n, rest2)
        | .error e => .error e
      else .error ()
    | [] => .error ()

/-- One or more comma-separated array elements up to the closing bracket
(the empty array is handled in `parseVal`). -/
def parseItems : Nat → List Nat → Except Unit (List Json × List Nat)
  | 0, _ => .error ()
  | fuel + 1, cs =>
    match parseVal fuel cs with
    | .error e => .error e
    | .ok (v, rest) =>
      match skipJsonWs rest with
      | 44 :: rest2 =>
        match parseItems fuel rest2 with
        | .ok (vs, rest3) => .ok (v :: vs, rest3)
        | .error e => .error e
      | 93 :: rest2 => .ok ([v], rest2)
      | _ => .error ()

/-- One or more comma-separated `"key":value` members up to the closing brace
(the empty object is handled in `parseVal`). -/
def parseMembers : Nat → List Nat → Except Unit (List (List Nat × Json) × List Nat)
  | 0, _ => .error ()
  | fuel + 1, cs =>
    match skipJsonWs cs with
    | 34 :: rest =>
      match parseStr rest with
      | .error e => .error e
      | .ok (k, rest1) =>
        match skipJsonWs rest1 with
        | 58 :: rest2 =>
          match parseVal fuel rest2 with
          | .error e => .error e
          | .ok (v, rest3) =>
            match skipJsonWs rest3 with
            | 44 :: rest4 =>
              match parseMembers fuel rest4 with
              | .ok (ms, rest5) => .ok ((k, v) :: ms, rest5)
              | .error e => .error e
            | 125 :: rest4 => .ok ([(k, v)], rest4)
            | _ => .error ()
        | _ => .error ()
    | _ => .error ()
end

/-- `json.loads` on a code-point sequence: one value, then nothing but
whitespace ("Extra data" otherwise). -/
def loads (s : List Nat) : Except Unit Json :=
  match parseVal (s.length + 1) s with
  | .error e => .error e
  | .ok (j, rest) => if skipJsonWs rest = [] then .ok j else .error ()

/-- The two failure modes of `decode_message`.  Both surface as `ValueError`
at the caller: `UnicodeDecodeError` (raised by `raw_line.decode("utf-8")`,
uncaught inside `decode_message` but a `ValueError` subclass) and the
`ValueError("Received malformed JSON payload")` re-raised from
`json.JSONDecodeError`. -/
inductive DecodeFailure where
  | unicodeDecodeError
  | malformedPayload
deriving Repr, DecidableEq

/-- Decidable equality on `Except`, by constructor analysis (definitional, so
`decide` can evaluate codec results on concrete payloads). -/
def exceptDecEq {ε α : Type} [DecidableEq ε] [DecidableEq α] :
    (a b : Except ε α) → Decidable (a = b)
  | .error e1, .error e2 =>
      if h : e1 = e2 then isTrue (by rw [h]) else isFalse (by intro hc; cases hc; exact h rfl)
  | .ok v1, .ok v2 =>
      if h : v1 = v2 then isTrue (by rw [h]) else isFalse (by intro hc; cases hc; exact h rfl)
  | .error _, .ok _ => isFalse (by intro hc; cases hc)
  | .ok _, .error _ => isFalse (by intro hc; cases hc)

instance {ε α : Type} [DecidableEq ε] [DecidableEq α] : DecidableEq (Except ε α) :=
  exceptDecEq

/-- `decode_message` (src/broker/utils.py lines 37-42):
`json.loads(raw_line.decode("utf-8").strip())`, with `JSONDecodeError`
re-raised as `ValueError`.  Note the absence of any object check: a line whose
JSON is not an object is returned as-is. -/
def decode_message (raw_line : List Nat) : Except DecodeFailure Json :=
  match utf8Decode raw_line with
  | none => .error .unicodeDecodeError
  | some s =>
    match loads (pyStrip s) with
    | .error _ => .error .malformedPayload
    | .ok j => .ok j

/-! ### Backends and the Model Manager (src/broker/model_manager.py)

The llama.cpp runtime is an external dependency: its completion output is
abstracted as the list of text packets `create_completion(..., stream=True)`
yields and the one-shot text it returns — everything the broker observes.
The queue-and-sentinel bridge of `LlamaBackend.stream_tokens` forwards those
enumerated chunks in FIFO order, so the chunk sequence the handler consumes
is the enumerated packet list itself. -/

/-- A constructed backend, by its observable behaviour. -/
inductive Backend where
  | echo
  | llama (packets : List PyStr) (oneShot : PyStr)

/-- `EchoBackend.generate` (model_manager.py lines 40-42): the prompt unchanged. -/
def echoGenerate (prompt : PyStr) : PyStr := prompt

/-- `EchoBackend.stream_tokens` (model_manager.py lines 44-49): nothing for an
empty prompt, else `enumerate(prompt)` yielding one single-character chunk per
code point. -/
def echoStreamTokens (prompt : PyStr) : List (Nat × PyStr) :=
  if prompt.isEmpty then []
  else prompt.enum.map (fun ic => (ic.1, [ic.2]))

/-- `LlamaBackend._stream_sync` (model_manager.py lines 108-110):
`enumerate(create_completion(..., stream=True))`, one chunk per packet. -/
def llamaStreamSync (packets : List PyStr) : List (Nat × PyStr) :=
  packets.enum

/-- `generate` of either backend. -/
def Backend.generate : Backend → PyStr → PyStr
  | .echo, prompt => echoGenerate prompt
  | .llama _ oneShot, _ => oneShot

/-- `stream_tokens` of either backend (for llama, through the FIFO
queue-and-sentinel bridge, which preserves the producer's order). -/
def Backend.streamTokens : Backend → PyStr → List (Nat × PyStr)
  | .echo, prompt => echoStreamTokens prompt
  | .llama packets _, _ => llamaStreamSync packets

/-- The Model Manager: the one backend selected at construction, and the
`model_name` used in result envelopes. -/
structure ModelManager where
  backend : Backend
  model_name : PyStr

/-- `ModelManager.format_result` (model_manager.py lines 150-156): the uniform
result envelope. -/
def formatResult (mm : ModelManager) (prompt : PyStr) (params : PyDict)
    (output : PyStr) : Json :=
  Json.obj [(lit "model", Json.str mm.model_name), (lit "prompt", Json.str prompt),
            (lit "params", Json.obj params), (lit "output", Json.str output)]

/-- `ModelManager.generate` (model_manager.py lines 144-147), at the value
level: the envelope built from the backend's one-shot output.  (The dict copy
it makes is aliasing-relevant only; see the heap model below.) -/
def mmGenerate (mm : ModelManager) (prompt : PyStr) (params : PyDict) : Json :=
  formatResult mm prompt params (mm.backend.generate prompt)

/-- `ModelManager.stream_tokens` (model_manager.py lines 149-151 of the async
generator): forwards the backend's chunks unchanged. -/
def mmStreamTokens (mm : ModelManager) (prompt : PyStr) : List (Nat × PyStr) :=
  mm.backend.streamTokens prompt

/-! ### The connection handler (src/broker/handlers.py) -/

/-- The `pong` reply (handlers.py line 69). -/
def msgPong : Json := Json.obj [(lit "type", Json.str (lit "pong"))]

/-- An `error` reply with a message code (handlers.py lines 51, 73). -/
def msgError (m : String) : Json :=
  Json.obj [(lit "type", Json.str (lit "error")), (lit "message", Json.str (lit m))]

/-- A `token` stream message (handlers.py line 106). -/
def msgToken (i : Nat) (t : PyStr) : Json :=
  Json.obj [(lit "type", Json.str (lit "token")), (lit "index", Json.num (i : Int)),
            (lit "token", Json.str t)]

/-- A `completion` reply carrying a result envelope (handlers.py lines 94, 110). -/
def msgCompletion (result : Json) : Json :=
  Json.obj [(lit "type", Json.str (lit "completion")), (lit "result", result)]

/-- `BrokerServer._stream_completion` (handlers.py lines 97-111): write one
`token` message per chunk, then one `completion` whose envelope output is
`"".join(tokens)`. -/
def streamCompletion (mm : ModelManager) (prompt : PyStr) (params : PyDict) :
    List Json :=
  let chunks := mmStreamTokens mm prompt
  chunks.map (fun c => msgToken c.1 c.2)
    ++ [msgCompletion (formatResult mm prompt params (chunks.map (fun c => c.2)).flatten)]

/-- The `stream` resolution of `BrokerServer._handle_completion` (handlers.py
lines 83-88), applied to `request.get("stream")` (so a stored JSON null and an
absent field both arrive as `Json.null`, as CPython's `dict.get` collapses
them to `None`) and the already-copied params dict: when the flag `is None`,
`bool(params.pop("stream", True))` decides; otherwise `bool(stream_flag)`
decides and `params.pop("stream", None)` discards the alias.  Either way the
`stream` key is gone from the resulting params. -/
def resolveStreamParams (stream_flag : Json) (params : PyDict) : Bool × PyDict :=
  if stream_flag = Json.null then
    (truthy (pyGetD params (lit "stream") (Json.bool true)), dictPopKey params (lit "stream"))
  else
    (truthy stream_flag, dictPopKey params (lit "stream"))

/-- `params = dict(request.get("params") or {})` (handlers.py line 82): a falsy
`params` field (absent, null, `{}`, ...) yields a fresh empty dict; a dict value
is copied.  `dict()` of a truthy non-mapping raises `TypeError` (the
pair-sequence acceptance of `dict` is not modelled). -/
def extractParams (request : PyDict) : Except Unit PyDict :=
  let v := pyGet request (lit "params")
  if truthy v then
    match v with
    | Json.obj kvs => .ok kvs
    | _ => .error ()
  else .ok []

/-- `prompt = request.get("prompt") or ""` (handlers.py line 81): any falsy
value (absent, null, `""`, `0`, ...) becomes the empty string. -/
def promptOrEmpty (request : PyDict) : Json :=
  let p := pyGet request (lit "prompt")
  if truthy p then p else Json.str []

/-- The prompt as a string, as the backend signatures (`prompt: str`) declare;
a truthy non-string prompt raises `TypeError` inside the backend flow and is
modelled as a failure. -/
def asPromptStr : Json → Except Unit PyStr
  | Json.str s => .ok s
  | _ => .error ()

/-- `BrokerServer._handle_completion` (handlers.py lines 80-95): extract the
prompt and the params copy, resolve the effective `stream` flag, then either
stream or reply with a single completion. -/
def handleCompletion (mm : ModelManager) (request : PyDict) :
    Except Unit (List Json) := do
  let prompt ← asPromptStr (promptOrEmpty request)
  let params0 ← extractParams request
  let sp := resolveStreamParams (pyGet request (lit "stream")) params0
  if sp.1 then
    pure (streamCompletion mm prompt sp.2)
  else
    pure [msgCompletion (mmGenerate mm prompt sp.2)]

/-- `BrokerServer._process_request` (handlers.py lines 66-78): read
`request.get("type", "completion")` — `ping` gets `pong`, anything other than
`completion` gets `error{unknown_request}`, `completion` enters the completion
flow.  A non-dict request has no `.get` and raises `AttributeError`, modelled
as a failure out of the dispatch. -/
def processRequest (mm : ModelManager) (request : Json) : Except Unit (List Json) :=
  match request with
  | Json.obj kvs =>
    let kind := pyGetD kvs (lit "type") (Json.str (lit "completion"))
    if kind = Json.str (lit "ping") then .ok [msgPong]
    else if kind ≠ Json.str (lit "completion") then .ok [msgError "unknown_request"]
    else handleCompletion mm kvs
  | _ => .error ()

/-- How a connection ends (handlers.py lines 43-63): an empty read (client
EOF, the loop breaks) or an unhandled exception (logged, the `finally` block
closes the writer). -/
inductive ConnClose where
  | clientEof
  | handlerFault
deriving Repr, DecidableEq

/-- `BrokerServer._handle_client` (handlers.py lines 38-63) over the finite
sequence of lines a client sends before EOF: per line, a decode failure
(`ValueError`, covering both `UnicodeDecodeError` from `.decode("utf-8")` and
the re-raised malformed-JSON error) is answered with `error{invalid_json}` and
the loop continues; a dispatch failure escapes the per-line handling, is
logged by the outer `except Exception`, and the connection closes with the
remaining lines unread. -/
def handleLines (mm : ModelManager) : List (List Nat) → List Json × ConnClose
  | [] => ([], .clientEof)
  | l :: ls =>
    match decode_message l with
    | .error _ =>
      let r := handleLines mm ls
      (msgError "invalid_json" :: r.1, r.2)
    | .ok req =>
      match processRequest mm req with
      | .ok msgs =>
        let r := handleLines mm ls
        (msgs ++ r.1, r.2)
      | .error _ => ([], .handlerFault)

/-! ### Backend selection (`ModelManager._init_backend`, model_manager.py
lines 158-180) -/

/-- Which backend class `_init_backend` instantiates. -/
inductive BackendChoice where
  | echoChoice
  | llamaChoice (model_path : PyStr) (n_ctx n_threads : Int)
deriving Repr, DecidableEq

/-- `ModelManager._init_backend` (model_manager.py lines 162-180).
`llamaAvailable` models `Llama is not None` (the optional import succeeded);
`pathExists` models `model_path.exists()`.  Total: every branch returns a
choice — the only `raise` in `LlamaBackend.__init__` is guarded by the
`llamaAvailable` check taken first, and the unknown-backend branch merely logs
a warning before defaulting to echo. -/
def init_backend (llamaAvailable : Bool) (backend : PyStr) (model_path : PyStr)
    (pathExists : Bool) (n_ctx n_threads : Int) : BackendChoice :=
  if backend = lit "llama" then
    if !llamaAvailable then .echoChoice
    else if !pathExists then .echoChoice
    else .llamaChoice model_path n_ctx n_threads
  else .echoChoice

/-- The echo-backed manager (`ModelManager(backend="echo")`), whose
`model_name` is the backend name. -/
def mmEcho : ModelManager := { backend := Backend.echo, model_name := lit "echo" }

/-! ### The double-checked lazy load (`LlamaBackend._ensure_model`,
model_manager.py lines 90-101)

Threads running `_ensure_model` concurrently are modelled by an interleaving
transition system: each step is one source-level action (a read of
`self._llama`, a lock acquisition or release, one constructor run), threads
are named by naturals, and any number of them may be in flight.  A loaded
instance is identified by the load ordinal, so "the same instance" is equality
of those identities. -/

/-- Program counter of one thread in `_ensure_model`. -/
inductive LoadPC where
  | start          -- about to test `self._llama is None` (the unlocked fast path)
  | waiting        -- saw `None`; about to enter `with self._lock`
  | critical       -- holds the lock; about to re-test `self._llama is None`
  | loading        -- holds the lock; about to run the `Llama(...)` constructor
  | unlocking      -- about to leave the `with` block (release the lock)
  | returning      -- about to evaluate `return self._llama`
  | done (v : Nat) -- returned the instance with identity `v`
deriving DecidableEq

/-- Shared state of one `LlamaBackend` plus every thread's program counter. -/
structure LoadState where
  llama : Option Nat   -- `self._llama`: the loaded instance's identity, if any
  loads : Nat          -- completed `Llama(...)` constructor runs
  lock : Option Nat    -- `self._lock`: the holding thread, if any
  pcs : Nat → LoadPC

/-- One interleaved step of some thread `t`. -/
inductive LoadStep : LoadState → LoadState → Prop where
  | checkFastSome (s : LoadState) (t v : Nat) :
      s.pcs t = .start → s.llama = some v →
      LoadStep s { s with pcs := Function.update s.pcs t .returning }
  | checkFastNone (s : LoadState) (t : Nat) :
      s.pcs t = .start → s.llama = none →
      LoadStep s { s with pcs := Function.update s.pcs t .waiting }
  | acquire (s : LoadState) (t : Nat) :
      s.pcs t = .waiting → s.lock = none →
      LoadStep s { s with lock := some t, pcs := Function.update s.pcs t .critical }
  | checkSlowSome (s : LoadState) (t v : Nat) :
      s.pcs t = .critical → s.llama = some v →
      LoadStep s { s with pcs := Function.update s.pcs t .unlocking }
  | checkSlowNone (s : LoadState) (t : Nat) :
      s.pcs t = .critical → s.llama = none →
      LoadStep s { s with pcs := Function.update s.pcs t .loading }
  | runLoad (s : LoadState) (t : Nat) :
      s.pcs t = .loading →
      LoadStep s { s with llama := some s.loads, loads := s.loads + 1,
                          pcs := Function.update s.pcs t .unlocking }
  | release (s : LoadState) (t : Nat) :
      s.pcs t = .unlocking → s.lock = some t →
      LoadStep s { s with lock := none, pcs := Function.update s.pcs t .returning }
  | returnRead (s : LoadState) (t v : Nat) :
      s.pcs t = .returning → s.llama = some v →
      LoadStep s { s with pcs := Function.update s.pcs t (.done v) }

/-- The backend before any use: nothing loaded, lock free, every thread at the
fast-path check. -/
def loadInit : LoadState :=
  { llama := none, loads := 0, lock := none, pcs := fun _ => .start }

/-- States reachable by interleaving any number of threads from the initial
state. -/
inductive LoadReachable : LoadState → Prop where
  | init : LoadReachable loadInit
  | step (s s2 : LoadState) : LoadReachable s → LoadStep s s2 → LoadReachable s2

/-- The inductive invariant of `_ensure_model`: the constructor ran at most
once, exactly when `self._llama` is set; lock-owning sections really hold the
lock; a loading thread still sees `None`; threads at or past the release point
see a loaded instance; finished threads returned the loaded instance. -/
def LoadInv (s : LoadState) : Prop :=
  s.loads ≤ 1 ∧
  (s.llama = none ↔ s.loads = 0) ∧
  (∀ t, (s.pcs t = .critical ∨ s.pcs t = .loading ∨ s.pcs t = .unlocking) →
    s.lock = some t) ∧
  (∀ t, s.pcs t = .loading → s.llama = none) ∧
  (∀ t, s.pcs t = .unlocking → s.llama ≠ none) ∧
  (∀ t, s.pcs t = .returning → s.llama ≠ none) ∧
  (∀ t v, s.pcs t = .done v → s.llama = some v)

/-- One concrete schedule of a single loader thread (thread `0`): the
fast-path miss, the acquisition, the second check, and the constructor run. -/
def loadS1 : LoadState := { loadInit with pcs := Function.update loadInit.pcs 0 .waiting }

/-- After thread `0` acquires the lock. -/
def loadS2 : LoadState :=
  { loadS1 with lock := some 0, pcs := Function.update loadS1.pcs 0 .critical }

/-- After thread `0` re-checks and still sees nothing loaded. -/
def loadS3 : LoadState := { loadS2 with pcs := Function.update loadS2.pcs 0 .loading }

/-- After thread `0` runs the constructor. -/
def loadS4 : LoadState :=
  { loadS3 with llama := some loadS3.loads, loads := loadS3.loads + 1,
                pcs := Function.update loadS3.pcs 0 .unlocking }

/-! ### Aliasing of the params dict (handlers.py line 82 and model_manager.py
line 145): a heap model

`dict(request.get("params") or {})` and `dict(params)` are the two defensive
copies the completion flow makes.  To state that the caller's objects are not
mutated, dict objects live in an explicit heap (a list of dicts addressed by
allocation index); a copy allocates at the end, and the only write (`pop`)
hits the fresh cell. -/

/-- A heap of dict objects, addressed by allocation index. -/
abbrev DictHeap := List PyDict

/-- `_handle_completion`'s params handling with explicit heap effects:
`paramsRef` is the heap cell `request["params"]` references (`none` when the
field is absent or falsy so `or {}` supplies a fresh empty dict).  `dict(...)`
allocates a copy at the end of the heap; the `pop` of the stream resolution
mutates only that fresh cell.  Returns the new heap, the resolved flag, and
the reference passed onward to the generation call. -/
def heapHandleParams (heap : DictHeap) (paramsRef : Option Nat) (stream_flag : Json) :
    DictHeap × Bool × Nat :=
  let orig : PyDict :=
    match paramsRef with
    | some r => heap.getD r []
    | none => []
  let fresh := heap.length
  let heap1 := heap ++ [orig]
  let sp := resolveStreamParams stream_flag orig
  (heap1.set fresh sp.2, sp.1, fresh)

/-- `ModelManager.generate`'s `copied_params = dict(params)` with explicit
heap effects: allocate a fresh copy of the referenced dict (the backend call
and the result envelope use the copy). -/
def heapGenerateCopy (heap : DictHeap) (paramsRef : Nat) : DictHeap × Nat :=
  (heap ++ [heap.getD paramsRef []], heap.length)

/-! ### The payload fragment that round-trips

`json.dumps` escapes an adjacent high-low surrogate pair of code points
exactly like one astral code point, so `json.loads` rebuilds the astral code
point and cannot recover the pair: round-tripping fails on such strings.  The
predicates below carve out the payloads free of that ambiguity (and record
the dict invariant of distinct keys). -/

/-- Does the code-point sequence contain a UTF-16 high surrogate immediately
followed by a low surrogate? -/
def hasSurrPairRun : List Nat → Bool
  | a :: b :: rest => (isHighSurr a && isLowSurr b) || hasSurrPairRun (b :: rest)
  | _ => false

/-- A Python string that survives the dump/load cycle: code points in the
`str` range, no adjacent high-low surrogate pair. -/
def okStr (s : List Nat) : Bool :=
  s.all (fun c => c < 1114112) && !hasSurrPairRun s

/-- Distinct keys — the invariant every Python dict satisfies. -/
def keysNodup : List (List Nat × Json) → Bool
  | [] => true
  | (k, _) :: ms => !(ms.any (fun kv => decide (kv.1 = k))) && keysNodup ms

mutual
/-- A JSON-serializable payload in the round-tripping fragment: every string
(object keys included) satisfies `okStr`, and every object has distinct keys. -/
def Json.okPayload : Json → Bool
  | .null => true
  | .bool _ => true
  | .num _ => true
  | .str s => okStr s
  | .arr es => Json.okPayloadList es
  | .obj ms => keysNodup ms && Json.okPayloadMembers ms

/-- `okPayload` on every array element. -/
def Json.okPayloadList : List Json → Bool
  | [] => true
  | e :: es => Json.okPayload e && Json.okPayloadList es

/-- `okStr` keys and `okPayload` values on every object member. -/
def Json.okPayloadMembers : List (List Nat × Json) → Bool
  | [] => true
  | (k, v) :: ms => okStr k && Json.okPayload v && Json.okPayloadMembers ms
end

/-- A remainder that cannot extend a rendered number literal: empty, or headed
by a code point that is no digit and none of `.`, `e`, `E`.  The JSON
delimiters `,`, `]`, `}` and end of input all qualify. -/
def numBreak : List Nat → Bool
  | [] => true
  | c :: _ => !(48 ≤ c && c ≤ 57) && c != 46 && c != 101 && c != 69

/-! ### Helper lemmas -/

theorem enumFrom_map_pair {α β : Type} (f : α → β) :
    ∀ (n : Nat) (l : List α),
      List.enumFrom n (l.map f) = (List.enumFrom n l).map (fun ic => (ic.1, f ic.2))
  | _, [] => rfl
  | n, a :: l => by
      simp only [List.map_cons, List.enumFrom_cons]
      rw [enumFrom_map_pair f (n + 1) l]

theorem enumFrom_map_fst {α : Type} :
    ∀ (n : Nat) (l : List α), (List.enumFrom n l).map Prod.fst = List.range' n l.length
  | _, [] => rfl
  | n, a :: l => by
      simp only [List.enumFrom_cons, List.map_cons, List.length_cons, List.range'_succ]
      rw [enumFrom_map_fst (n + 1) l]

theorem enumFrom_map_snd {α : Type} :
    ∀ (n : Nat) (l : List α), (List.enumFrom n l).map Prod.snd = l
  | _, [] => rfl
  | n, a :: l => by
      simp only [List.enumFrom_cons, List.map_cons]
      rw [enumFrom_map_snd (n + 1) l]

theorem pyGetOpt_cons (kv : PyStr × Json) (d : PyDict) (k : PyStr) :
    pyGetOpt (kv :: d) k = if kv.1 = k then some kv.2 else pyGetOpt d k := by
  by_cases h : kv.1 = k <;> simp [pyGetOpt, List.find?_cons, h]

theorem dictPopKey_cons (kv : PyStr × Json) (d : PyDict) (k : PyStr) :
    dictPopKey (kv :: d) k = if kv.1 = k then dictPopKey d k else kv :: dictPopKey d k := by
  by_cases h : kv.1 = k <;> simp [dictPopKey, List.filter_cons, h]

theorem pyGetOpt_dictPopKey_self (d : PyDict) (k : PyStr) :
    pyGetOpt (dictPopKey d k) k = none := by
  induction d with
  | nil => rfl
  | cons kv d ih =>
      rw [dictPopKey_cons]
      by_cases h : kv.1 = k
      · simpa [h] using ih
      · rw [if_neg h, pyGetOpt_cons, if_neg h]
        exact ih

theorem pyGetOpt_dictPopKey_ne (d : PyDict) (k k2 : PyStr) (h : k2 ≠ k) :
    pyGetOpt (dictPopKey d k) k2 = pyGetOpt d k2 := by
  induction d with
  | nil => rfl
  | cons kv d ih =>
      rw [dictPopKey_cons, pyGetOpt_cons]
      by_cases hk : kv.1 = k
      · have hne : ¬ kv.1 = k2 := by rw [hk]; exact fun hc => h hc.symm
        rw [if_pos hk, if_neg hne]
        exact ih
      · rw [if_neg hk, pyGetOpt_cons]
        by_cases h2 : kv.1 = k2
        · rw [if_pos h2, if_pos h2]
        · rw [if_neg h2, if_neg h2]
          exact ih

/-! ### Codec round-trip, part 1: the string escape cycle -/

theorem hexVal_hexDigit (d : Nat) (h : d < 16) : hexVal (hexDigit d) = some d := by
  interval_cases d <;> rfl

theorem hex4_digits (u : Nat) (h : u < 65536) :
    hex4 (hexDigit (u / 4096 % 16)) (hexDigit (u / 256 % 16))
      (hexDigit (u / 16 % 16)) (hexDigit (u % 16)) = some u := by
  have h1 := hexVal_hexDigit (u / 4096 % 16) (Nat.mod_lt _ (by omega))
  have h2 := hexVal_hexDigit (u / 256 % 16) (Nat.mod_lt _ (by omega))
  have h3 := hexVal_hexDigit (u / 16 % 16) (Nat.mod_lt _ (by omega))
  have h4 := hexVal_hexDigit (u % 16) (Nat.mod_lt _ (by omega))
  simp only [hex4, h1, h2, h3, h4, Option.some.injEq]
  omega

theorem escapeChar_printable (c : Nat) (h1 : 32 ≤ c) (h2 : c ≤ 126) (h3 : c ≠ 34)
    (h4 : c ≠ 92) : escapeChar c = [c] := by
  unfold escapeChar
  split_ifs <;> first | rfl | (exfalso; omega)

theorem escapeChar_uescape (c : Nat) (hno : ¬(32 ≤ c ∧ c ≤ 126))
    (h8 : c ≠ 8) (h9 : c ≠ 9) (h10 : c ≠ 10) (h12 : c ≠ 12) (h13 : c ≠ 13)
    (hlt : c < 65536) : escapeChar c = uEscape c := by
  unfold escapeChar
  split_ifs with g1 g2 g3 g4 g5 g6 g7 g8 g9 <;> first | rfl | (exfalso; omega)

theorem escapeChar_astral (c : Nat) (h : 65536 ≤ c) :
    escapeChar c
      = uEscape (55296 + (c - 65536) / 1024) ++ uEscape (56320 + (c - 65536) % 1024) := by
  unfold escapeChar
  split_ifs with f1 f2 f3 f4 f5 f6 f7 f8 f9 <;> first | rfl | (exfalso; omega)

theorem hasSurrPairRun_cons_false (c : Nat) (s : List Nat)
    (h : hasSurrPairRun (c :: s) = false) : hasSurrPairRun s = false := by
  cases s with
  | nil => rfl
  | cons b r =>
      unfold hasSurrPairRun at h
      rw [Bool.or_eq_false_iff] at h
      exact h.2

theorem okStr_head_tail (c : Nat) (s : List Nat) (h : okStr (c :: s) = true) :
    c < 1114112 ∧ okStr s = true := by
  unfold okStr at h
  rw [Bool.and_eq_true] at h
  obtain ⟨hall, hrun⟩ := h
  rw [List.all_cons, Bool.and_eq_true, decide_eq_true_eq] at hall
  rw [Bool.not_eq_true'] at hrun
  refine ⟨hall.1, ?_⟩
  unfold okStr
  rw [Bool.and_eq_true, Bool.not_eq_true']
  exact ⟨hall.2, hasSurrPairRun_cons_false c s hrun⟩

theorem okStr_no_pair (c b : Nat) (r : List Nat) (h : okStr (c :: b :: r) = true)
    (hc : isHighSurr c = true) : isLowSurr b = false := by
  unfold okStr at h
  rw [Bool.and_eq_true, Bool.not_eq_true'] at h
  have hrun := h.2
  unfold hasSurrPairRun at hrun
  rw [Bool.or_eq_false_iff, Bool.and_eq_false_iff] at hrun
  rcases hrun.1 with h1 | h1
  · rw [hc] at h1
    cases h1
  · exact h1

theorem parseStrBody_plain_step (f : Nat) (acc : List Nat) (c : Nat) (tail : List Nat)
    (h32 : 32 ≤ c) (h34 : c ≠ 34) (h92 : c ≠ 92) :
    parseStrBody (f + 1) acc (c :: tail) = parseStrBody f (c :: acc) tail := by
  rw [parseStrBody.eq_def]
  split
  · omega
  · rename_i fuel heq0
    have hf : fuel = f := by omega
    subst hf
    split
    · rename_i heq2
      simp only [List.cons.injEq] at heq2
      exact absurd heq2.1 h34
    · rename_i heq2
      simp only [List.cons.injEq] at heq2
      exact absurd heq2.1 h92
    · rename_i heq2
      simp only [List.cons.injEq] at heq2
      exact absurd heq2.1 h92
    · rename_i heq2
      simp only [List.cons.injEq] at heq2
      exact absurd heq2.1 h92
    · rename_i heq2
      simp only [List.cons.injEq] at heq2
      obtain ⟨h1, h2⟩ := heq2
      subst h1
      subst h2
      rw [if_neg (by omega)]
    · rename_i heq2
      simp at heq2

theorem parseStrBody_escaped_lit (f : Nat) (acc tail : List Nat) (c e : Nat)
    (he : escDecode e = some c) (h117 : e ≠ 117) :
    parseStrBody (f + 1) acc (92 :: e :: tail) = parseStrBody f (c :: acc) tail := by
  rw [parseStrBody.eq_def]
  split
  · omega
  · rename_i fuel heq0
    have hf : fuel = f := by omega
    subst hf
    split
    · rename_i heq2
      simp at heq2
    · rename_i heq2
      simp only [List.cons.injEq] at heq2
      exact absurd heq2.2.1 h117
    · rename_i heq2
      simp only [List.cons.injEq] at heq2
      obtain ⟨-, h1, h2⟩ := heq2
      subst h1
      subst h2
      rw [he]
    · rename_i heq2
      simp at heq2
    · rename_i h34f h6f hef h92f heq2
      simp only [List.cons.injEq] at heq2
      obtain ⟨h1, h2⟩ := heq2
      exact (hef e tail h1.symm h2.symm).elim
    · rename_i heq2
      simp at heq2

theorem parseStrHigh_other_step (f : Nat) (acc : List Nat) (u c : Nat) (tail : List Nat)
    (h92 : c ≠ 92) :
    parseStrHigh (f + 1) acc u (c :: tail) = parseStrBody f (u :: acc) (c :: tail) := by
  rw [parseStrHigh.eq_def]
  split
  · omega
  · rename_i fuel heq0
    have hf : fuel = f := by omega
    subst hf
    split
    · rename_i heq2
      simp only [List.cons.injEq] at heq2
      exact absurd heq2.1 h92
    · rename_i heq2
      simp only [List.cons.injEq] at heq2
      exact absurd heq2.1 h92
    · rfl

theorem parseStrHigh_u_step_nolow (f : Nat) (acc : List Nat) (u a b c d u2 : Nat)
    (tail : List Nat) (hx : hex4 a b c d = some u2) (hlow : isLowSurr u2 = false) :
    parseStrHigh (f + 1) acc u (92 :: 117 :: a :: b :: c :: d :: tail)
      = parseStrBody f (u :: acc) (92 :: 117 :: a :: b :: c :: d :: tail) := by
  rw [parseStrHigh.eq_def]
  split
  · omega
  · rename_i fuel heq0
    have hf : fuel = f := by omega
    subst hf
    simp [hx, hlow]

theorem parseStrHigh_u_step_low (f : Nat) (acc : List Nat) (u a b c d u2 : Nat)
    (tail : List Nat) (hx : hex4 a b c d = some u2) (hlow : isLowSurr u2 = true) :
    parseStrHigh (f + 1) acc u (92 :: 117 :: a :: b :: c :: d :: tail)
      = parseStrBody f (surrPair u u2 :: acc) tail := by
  rw [parseStrHigh.eq_def]
  split
  · omega
  · rename_i fuel heq0
    have hf : fuel = f := by omega
    subst hf
    simp [hx, hlow]

theorem parseStrBody_u_step (f : Nat) (acc : List Nat) (a b c d u : Nat)
    (tail : List Nat) (hx : hex4 a b c d = some u) :
    parseStrBody (f + 1) acc (92 :: 117 :: a :: b :: c :: d :: tail)
      = (if isHighSurr u then parseStrHigh f acc u tail
         else parseStrBody f (u :: acc) tail) := by
  rw [parseStrBody.eq_def]
  split
  · omega
  · rename_i fuel heq0
    have hf : fuel = f := by omega
    subst hf
    simp [hx]

theorem isLowSurr_astral_high (c2 : Nat) (hge : 65536 ≤ c2) (hlt : c2 < 1114112) :
    isLowSurr (55296 + (c2 - 65536) / 1024) = false := by
  unfold isLowSurr
  rw [Bool.and_eq_false_iff]
  left
  rw [decide_eq_false_iff_not]
  omega

theorem parseStrHigh_no_combine (u : Nat) (f : Nat) (acc : List Nat)
    (s2 rest : List Nat) (hok : okStr s2 = true)
    (hnl : ∀ b r, s2 = b :: r → isLowSurr b = false) :
    parseStrHigh (f + 1) acc u (s2.flatMap escapeChar ++ 34 :: rest)
      = parseStrBody f (u :: acc) (s2.flatMap escapeChar ++ 34 :: rest) := by
  cases s2 with
  | nil =>
      simp only [List.flatMap_nil, List.nil_append]
      exact parseStrHigh_other_step f acc u 34 rest (by decide)
  | cons c2 s3 =>
      obtain ⟨hc2, _⟩ := okStr_head_tail c2 s3 hok
      have hlow : isLowSurr c2 = false := hnl c2 s3 rfl
      rw [List.flatMap_cons, List.append_assoc]
      by_cases h34 : c2 = 34
      · subst h34
        rw [show escapeChar 34 = [92, 34] from rfl]
        simp [parseStrHigh]
      by_cases h92 : c2 = 92
      · subst h92
        rw [show escapeChar 92 = [92, 92] from rfl]
        simp [parseStrHigh]
      by_cases h8 : c2 = 8
      · subst h8
        rw [show escapeChar 8 = [92, 98] from rfl]
        simp [parseStrHigh]
      by_cases h9 : c2 = 9
      · subst h9
        rw [show escapeChar 9 = [92, 116] from rfl]
        simp [parseStrHigh]
      by_cases h10 : c2 = 10
      · subst h10
        rw [show escapeChar 10 = [92, 110] from rfl]
        simp [parseStrHigh]
      by_cases h12 : c2 = 12
      · subst h12
        rw [show escapeChar 12 = [92, 102] from rfl]
        simp [parseStrHigh]
      by_cases h13 : c2 = 13
      · subst h13
        rw [show escapeChar 13 = [92, 114] from rfl]
        simp [parseStrHigh]
      by_cases hpr : 32 ≤ c2 ∧ c2 ≤ 126
      · rw [escapeChar_printable c2 hpr.1 hpr.2 h34 h92]
        simp only [List.cons_append, List.nil_append]
        exact parseStrHigh_other_step f acc u c2 _ h92
      by_cases hbmp : c2 < 65536
      · rw [escapeChar_uescape c2 hpr h8 h9 h10 h12 h13 hbmp]
        rw [show uEscape c2 = 92 :: 117 :: hexDigit (c2 / 4096 % 16) :: hexDigit (c2 / 256 % 16)
            :: hexDigit (c2 / 16 % 16) :: [hexDigit (c2 % 16)] from rfl]
        simp only [List.cons_append, List.nil_append]
        exact parseStrHigh_u_step_nolow f acc u _ _ _ _ c2 _ (hex4_digits c2 hbmp) hlow
      · have hge : 65536 ≤ c2 := by omega
        rw [escapeChar_astral c2 hge, List.append_assoc]
        rw [show uEscape (55296 + (c2 - 65536) / 1024)
            = 92 :: 117 :: hexDigit ((55296 + (c2 - 65536) / 1024) / 4096 % 16)
              :: hexDigit ((55296 + (c2 - 65536) / 1024) / 256 % 16)
              :: hexDigit ((55296 + (c2 - 65536) / 1024) / 16 % 16)
              :: [hexDigit ((55296 + (c2 - 65536) / 1024) % 16)] from rfl]
        simp only [List.cons_append, List.nil_append]
        exact parseStrHigh_u_step_nolow f acc u _ _ _ _ (55296 + (c2 - 65536) / 1024) _
          (hex4_digits (55296 + (c2 - 65536) / 1024) (by omega))
          (isLowSurr_astral_high c2 hge hc2)

theorem uEscape_length (u : Nat) : (uEscape u).length = 6 := rfl

theorem isHighSurr_astral (c : Nat) (hge : 65536 ≤ c) (hlt : c < 1114112) :
    isHighSurr (55296 + (c - 65536) / 1024) = true := by
  unfold isHighSurr
  rw [Bool.and_eq_true]
  constructor <;> rw [decide_eq_true_eq] <;> omega

theorem isLowSurr_astral_low (c : Nat) (hge : 65536 ≤ c) :
    isLowSurr (56320 + (c - 65536) % 1024) = true := by
  unfold isLowSurr
  rw [Bool.and_eq_true]
  have := Nat.mod_lt (c - 65536) (show 0 < 1024 by omega)
  constructor <;> rw [decide_eq_true_eq] <;> omega

/-- The string escape cycle: scanning the `json.dumps`-escaped form of a
string `s` (followed by the closing quote) recovers `s` exactly, provided `s`
has no adjacent high-low surrogate pair. -/
theorem parseStrBody_escape (s : List Nat) : ∀ (acc rest : List Nat) (fuel : Nat),
    okStr s = true → (s.flatMap escapeChar).length < fuel →
    parseStrBody fuel acc (s.flatMap escapeChar ++ 34 :: rest)
      = .ok (acc.reverse ++ s, rest) := by
  induction s with
  | nil =>
      intro acc rest fuel hok hf
      simp only [List.flatMap_nil, List.length_nil] at hf
      cases fuel with
      | zero => omega
      | succ f =>
          simp only [List.flatMap_nil, List.nil_append]
          simp [parseStrBody]
  | cons c s2 ih =>
      intro acc rest fuel hok hf
      obtain ⟨hc, hok2⟩ := okStr_head_tail c s2 hok
      rw [List.flatMap_cons] at hf ⊢
      rw [List.append_assoc]
      by_cases h34 : c = 34
      · subst h34
        rw [show escapeChar 34 = [92, 34] from rfl] at hf ⊢
        simp only [List.length_append, List.length_cons, List.length_nil] at hf
        cases fuel with
        | zero => omega
        | succ f =>
            simp only [List.cons_append, List.nil_append]
            rw [parseStrBody_escaped_lit f acc _ 34 34 rfl (by decide)]
            rw [ih (34 :: acc) rest f hok2 (by omega)]
            simp
      by_cases h92 : c = 92
      · subst h92
        rw [show escapeChar 92 = [92, 92] from rfl] at hf ⊢
        simp only [List.length_append, List.length_cons, List.length_nil] at hf
        cases fuel with
        | zero => omega
        | succ f =>
            simp only [List.cons_append, List.nil_append]
            rw [parseStrBody_escaped_lit f acc _ 92 92 rfl (by decide)]
            rw [ih (92 :: acc) rest f hok2 (by omega)]
            simp
      by_cases h8 : c = 8
      · subst h8
        rw [show escapeChar 8 = [92, 98] from rfl] at hf ⊢
        simp only [List.length_append, List.length_cons, List.length_nil] at hf
        cases fuel with
        | zero => omega
        | succ f =>
            simp only [List.cons_append, List.nil_append]
            rw [parseStrBody_escaped_lit f acc _ 8 98 rfl (by decide)]
            rw [ih (8 :: acc) rest f hok2 (by omega)]
            simp
      by_cases h9 : c = 9
      · subst h9
        rw [show escapeChar 9 = [92, 116] from rfl] at hf ⊢
        simp only [List.length_append, List.length_cons, List.length_nil] at hf
        cases fuel with
        | zero => omega
        | succ f =>
            simp only [List.cons_append, List.nil_append]
            rw [parseStrBody_escaped_lit f acc _ 9 116 rfl (by decide)]
            rw [ih (9 :: acc) rest f hok2 (by omega)]
            simp
      by_cases h10 : c = 10
      · subst h10
        rw [show escapeChar 10 = [92, 110] from rfl] at hf ⊢
        simp only [List.length_append, List.length_cons, List.length_nil] at hf
        cases fuel with
        | zero => omega
        | succ f =>
            simp only [List.cons_append, List.nil_append]
            rw [parseStrBody_escaped_lit f acc _ 10 110 rfl (by decide)]
            rw [ih (10 :: acc) rest f hok2 (by omega)]
            simp
      by_cases h12 : c = 12
      · subst h12
        rw [show escapeChar 12 = [92, 102] from rfl] at hf ⊢
        simp only [List.length_append, List.length_cons, List.length_nil] at hf
        cases fuel with
        | zero => omega
        | succ f =>
            simp only [List.cons_append, List.nil_append]
            rw [parseStrBody_escaped_lit f acc _ 12 102 rfl (by decide)]
            rw [ih (12 :: acc) rest f hok2 (by omega)]
            simp
      by_cases h13 : c = 13
      · subst h13
        rw [show escapeChar 13 = [92, 114] from rfl] at hf ⊢
        simp only [List.length_append, List.length_cons, List.length_nil] at hf
        cases fuel with
        | zero => omega
        | succ f =>
            simp only [List.cons_append, List.nil_append]
            rw [parseStrBody_escaped_lit f acc _ 13 114 rfl (by decide)]
            rw [ih (13 :: acc) rest f hok2 (by omega)]
            simp
      by_cases hpr : 32 ≤ c ∧ c ≤ 126
      · rw [escapeChar_printable c hpr.1 hpr.2 h34 h92] at hf ⊢
        simp only [List.length_append, List.length_cons, List.length_nil] at hf
        cases fuel with
        | zero => omega
        | succ f =>
            simp only [List.cons_append, List.nil_append]
            rw [parseStrBody_plain_step f acc c _ hpr.1 h34 h92]
            rw [ih (c :: acc) rest f hok2 (by omega)]
            simp
      by_cases hbmp : c < 65536
      · rw [escapeChar_uescape c hpr h8 h9 h10 h12 h13 hbmp] at hf ⊢
        rw [show uEscape c = 92 :: 117 :: hexDigit (c / 4096 % 16) :: hexDigit (c / 256 % 16)
            :: hexDigit (c / 16 % 16) :: [hexDigit (c % 16)] from rfl] at hf ⊢
        simp only [List.length_append, List.length_cons, List.length_nil] at hf
        cases fuel with
        | zero => omega
        | succ f =>
            simp only [List.cons_append, List.nil_append]
            rw [parseStrBody_u_step f acc _ _ _ _ c _ (hex4_digits c hbmp)]
            by_cases hhigh : isHighSurr c = true
            · rw [if_pos hhigh]
              have hnl : ∀ b r, s2 = b :: r → isLowSurr b = false := by
                intro b r hbr
                subst hbr
                exact okStr_no_pair c b r hok hhigh
              cases f with
              | zero => omega
              | succ f2 =>
                  rw [parseStrHigh_no_combine c f2 acc s2 rest hok2 hnl]
                  rw [ih (c :: acc) rest f2 hok2 (by omega)]
                  simp
            · rw [if_neg hhigh]
              rw [ih (c :: acc) rest f hok2 (by omega)]
              simp
      · have hge : 65536 ≤ c := by omega
        rw [escapeChar_astral c hge] at hf ⊢
        rw [List.append_assoc]
        rw [show uEscape (55296 + (c - 65536) / 1024)
            = 92 :: 117 :: hexDigit ((55296 + (c - 65536) / 1024) / 4096 % 16)
              :: hexDigit ((55296 + (c - 65536) / 1024) / 256 % 16)
              :: hexDigit ((55296 + (c - 65536) / 1024) / 16 % 16)
              :: [hexDigit ((55296 + (c - 65536) / 1024) % 16)] from rfl]
        simp only [List.length_append, uEscape_length] at hf
        cases fuel with
        | zero => omega
        | succ f =>
            simp only [List.cons_append, List.nil_append]
            rw [parseStrBody_u_step f acc _ _ _ _ (55296 + (c - 65536) / 1024) _
              (hex4_digits (55296 + (c - 65536) / 1024) (by omega))]
            rw [if_pos (isHighSurr_astral c hge hc)]
            cases f with
            | zero => omega
            | succ f2 =>
                rw [show uEscape (56320 + (c - 65536) % 1024)
                    = 92 :: 117 :: hexDigit ((56320 + (c - 65536) % 1024) / 4096 % 16)
                      :: hexDigit ((56320 + (c - 65536) % 1024) / 256 % 16)
                      :: hexDigit ((56320 + (c - 65536) % 1024) / 16 % 16)
                      :: [hexDigit ((56320 + (c - 65536) % 1024) % 16)] from rfl]
                simp only [List.cons_append, List.nil_append]
                rw [parseStrHigh_u_step_low f2 acc _ _ _ _ _ (56320 + (c - 65536) % 1024) _
                  (hex4_digits (56320 + (c - 65536) % 1024)
                    (by have := Nat.mod_lt (c - 65536) (show 0 < 1024 by omega); omega))
                  (isLowSurr_astral_low c hge)]
                rw [show surrPair (55296 + (c - 65536) / 1024) (56320 + (c - 65536) % 1024)
                    = c from by unfold surrPair; omega]
                rw [ih (c :: acc) rest f2 hok2 (by omega)]
                simp

/-- The string escape cycle from the whole-string entry point `parseStr`. -/
theorem parseStr_escape (s rest : List Nat) (hok : okStr s = true) :
    parseStr (s.flatMap escapeChar ++ 34 :: rest) = .ok (s, rest) := by
  unfold parseStr
  rw [parseStrBody_escape s [] rest _ hok (by simp [List.length_append]; omega)]
  simp

/-! ### Codec round-trip, part 2: the number rendering cycle -/

theorem natDecimalAux_eq (n : Nat) : ∀ f1 f2 : Nat, n < f1 → n < f2 →
    natDecimalAux f1 n = natDecimalAux f2 n := by
  induction n using Nat.strong_induction_on with
  | _ n ih =>
      intro f1 f2 h1 h2
      cases f1 with
      | zero => omega
      | succ g1 =>
          cases f2 with
          | zero => omega
          | succ g2 =>
              simp only [natDecimalAux]
              by_cases h10 : n < 10
              · rw [if_pos h10, if_pos h10]
              · rw [if_neg h10, if_neg h10,
                  ih (n / 10) (by omega) g1 g2 (by omega) (by omega)]

theorem natDecimal_unfold (n : Nat) :
    natDecimal n = if n < 10 then [48 + n] else natDecimal (n / 10) ++ [48 + n % 10] := by
  unfold natDecimal
  conv_lhs => rw [natDecimalAux]
  by_cases h10 : n < 10
  · rw [if_pos h10, if_pos h10]
  · rw [if_neg h10, if_neg h10,
      natDecimalAux_eq (n / 10) n (n / 10 + 1) (by omega) (by omega)]

theorem natDecimal_digits (n : Nat) : ∀ c ∈ natDecimal n, 48 ≤ c ∧ c ≤ 57 := by
  induction n using Nat.strong_induction_on with
  | _ n ih =>
      rw [natDecimal_unfold]
      by_cases h10 : n < 10
      · rw [if_pos h10]
        intro c hc
        simp at hc
        omega
      · rw [if_neg h10]
        intro c hc
        rw [List.mem_append] at hc
        rcases hc with hc | hc
        · exact ih (n / 10) (by omega) c hc
        · simp at hc
          have := Nat.mod_lt n (show 0 < 10 by omega)
          omega

theorem natDecimal_head (n : Nat) :
    ∃ c t, natDecimal n = c :: t ∧ 48 ≤ c ∧ c ≤ 57 ∧ (1 ≤ n → 49 ≤ c) := by
  induction n using Nat.strong_induction_on with
  | _ n ih =>
      rw [natDecimal_unfold]
      by_cases h10 : n < 10
      · rw [if_pos h10]
        exact ⟨48 + n, [], rfl, by omega, by omega, by omega⟩
      · rw [if_neg h10]
        obtain ⟨c, t, heq, h1, h2, h3⟩ := ih (n / 10) (by omega)
        rw [heq]
        exact ⟨c, t ++ [48 + n % 10], rfl, h1, h2, fun _ => h3 (by omega)⟩

theorem digitsVal_append_digit (l : List Nat) (d : Nat) :
    digitsVal (l ++ [d]) = digitsVal l * 10 + (d - 48) := by
  unfold digitsVal
  rw [List.foldl_append]
  rfl

theorem digitsVal_natDecimal (n : Nat) : digitsVal (natDecimal n) = n := by
  induction n using Nat.strong_induction_on with
  | _ n ih =>
      rw [natDecimal_unfold]
      by_cases h10 : n < 10
      · rw [if_pos h10]
        unfold digitsVal
        simp only [List.foldl_cons, List.foldl_nil]
        omega
      · rw [if_neg h10, digitsVal_append_digit, ih (n / 10) (by omega)]
        omega

theorem takeDigits_break (cs : List Nat) (h : numBreak cs = true) :
    takeDigits cs = ([], cs) := by
  cases cs with
  | nil => rfl
  | cons c t =>
      unfold numBreak at h
      rw [Bool.and_eq_true, Bool.and_eq_true, Bool.and_eq_true] at h
      have hd : (decide (48 ≤ c) && decide (c ≤ 57)) = false := by
        have := h.1.1.1
        rwa [Bool.not_eq_true'] at this
      unfold takeDigits
      rw [show ((48 ≤ c && c ≤ 57) : Bool) = false from hd]
      simp

theorem takeDigits_run (dl : List Nat) (hdig : ∀ d ∈ dl, 48 ≤ d ∧ d ≤ 57)
    (suffix : List Nat) (hsuf : takeDigits suffix = ([], suffix)) :
    takeDigits (dl ++ suffix) = (dl, suffix) := by
  induction dl with
  | nil =>
      rw [List.nil_append, hsuf]
  | cons d dt ihd =>
      have hd2 := hdig d (by simp)
      have hd : ((48 ≤ d && d ≤ 57) : Bool) = true := by
        rw [Bool.and_eq_true, decide_eq_true_eq, decide_eq_true_eq]
        omega
      simp only [List.cons_append]
      unfold takeDigits
      rw [hd]
      simp [ihd (fun x hx => hdig x (by simp [hx]))]

theorem parseIntDigits_natDecimal (n : Nat) (rest : List Nat)
    (hrest : takeDigits rest = ([], rest)) :
    parseIntDigits (natDecimal n ++ rest) = some (n, rest) := by
  by_cases h0 : n = 0
  · subst h0
    rw [show natDecimal 0 = [48] from rfl]
    simp only [List.cons_append, List.nil_append]
    rfl
  · obtain ⟨c, t, heq, h48, h57, h49⟩ := natDecimal_head n
    have h49' := h49 (by omega)
    have hdigits := natDecimal_digits n
    rw [heq] at hdigits
    have htake : takeDigits (t ++ rest) = (t, rest) :=
      takeDigits_run t (fun x hx => hdigits x (by simp [hx])) rest hrest
    have hval : digitsVal (c :: t) = n := by
      have := digitsVal_natDecimal n
      rwa [heq] at this
    rw [heq]
    simp only [List.cons_append]
    rw [parseIntDigits.eq_def]
    split
    · rename_i heq2
      simp only [List.cons.injEq] at heq2
      omega
    · rename_i heq2
      simp only [List.cons.injEq] at heq2
      obtain ⟨h1, h2⟩ := heq2
      subst h1
      subst h2
      rw [if_pos (by rw [Bool.and_eq_true, decide_eq_true_eq, decide_eq_true_eq]; omega)]
      rw [htake]
      simp [hval]
    · rename_i heq2
      simp at heq2

theorem floatFollows_break (cs : List Nat) (h : numBreak cs = true) :
    floatFollows cs = false := by
  cases cs with
  | nil => rfl
  | cons c t =>
      unfold numBreak at h
      rw [Bool.and_eq_true, Bool.and_eq_true, Bool.and_eq_true] at h
      have h46 : c ≠ 46 := by
        have := h.1.1.2
        rwa [bne_iff_ne] at this
      have h101 : c ≠ 101 := by
        have := h.1.2
        rwa [bne_iff_ne] at this
      have h69 : c ≠ 69 := by
        have := h.2
        rwa [bne_iff_ne] at this
      simp only [floatFollows]
      rw [if_neg h46, if_neg (by simp [h101, h69])]

theorem parseNum_intDecimal (i : Int) (rest : List Nat) (hbr : numBreak rest = true) :
    parseNum (intDecimal i ++ rest) = .ok (i, rest) := by
  have hrest := takeDigits_break rest hbr
  have hff := floatFollows_break rest hbr
  by_cases hneg : i < 0
  · unfold intDecimal
    rw [if_pos hneg]
    simp only [List.cons_append, List.nil_append]
    rw [show parseNum (45 :: (natDecimal i.natAbs ++ rest))
        = (match parseIntDigits (natDecimal i.natAbs ++ rest) with
           | some (n, r) => if floatFollows r then .error () else .ok (-(n : Int), r)
           | none => .error ()) from rfl]
    rw [parseIntDigits_natDecimal i.natAbs rest hrest]
    simp only [hff, Bool.false_eq_true, if_false]
    rw [show (-(i.natAbs : Int)) = i from by omega]
  · unfold intDecimal
    rw [if_neg hneg]
    simp only [List.nil_append]
    obtain ⟨c, t, heq, h48, h57, -⟩ := natDecimal_head i.natAbs
    rw [parseNum.eq_def]
    split
    · rename_i heq2
      rw [heq] at heq2
      simp only [List.cons_append, List.cons.injEq] at heq2
      omega
    · rename_i hne
      rw [parseIntDigits_natDecimal i.natAbs rest hrest]
      simp only [hff, Bool.false_eq_true, if_false]
      rw [show ((i.natAbs : Int)) = i from by omega]

/-! ### Codec round-trip, part 3: whole values -/

theorem renderItemsTail_cons (e : Json) (es : List Json) :
    Json.renderItemsTail (e :: es) = 44 :: Json.renderItems (e :: es) := rfl

theorem renderMembersTail_cons (kv : List Nat × Json) (ms : List (List Nat × Json)) :
    Json.renderMembersTail (kv :: ms) = 44 :: Json.renderMembers (kv :: ms) := by
  obtain ⟨k, v⟩ := kv
  rfl

theorem render_head (v : Json) :
    ∃ c t, Json.render v = c :: t ∧ jsonWs c = false ∧ c ≠ 93 ∧ c ≠ 125 := by
  cases v with
  | null => exact ⟨110, _, rfl, by decide, by decide, by decide⟩
  | bool b =>
      cases b with
      | true => exact ⟨116, _, rfl, by decide, by decide, by decide⟩
      | false => exact ⟨102, _, rfl, by decide, by decide, by decide⟩
  | num n =>
      by_cases hneg : n < 0
      · refine ⟨45, natDecimal n.natAbs, ?_, by decide, by decide, by decide⟩
        show intDecimal n = 45 :: natDecimal n.natAbs
        unfold intDecimal
        rw [if_pos hneg]
        rfl
      · obtain ⟨c, t, heq, h48, h57, -⟩ := natDecimal_head n.natAbs
        refine ⟨c, t, ?_, ?_, by omega, by omega⟩
        · show intDecimal n = c :: t
          unfold intDecimal
          rw [if_neg hneg, List.nil_append, heq]
        · unfold jsonWs
          simp only [Bool.or_eq_false_iff, decide_eq_false_iff_not]
          omega
  | str s => exact ⟨34, _, rfl, by decide, by decide, by decide⟩
  | arr es => exact ⟨91, _, rfl, by decide, by decide, by decide⟩
  | obj ms => exact ⟨123, _, rfl, by decide, by decide, by decide⟩

theorem skipJsonWs_render (v : Json) (x : List Nat) :
    skipJsonWs (Json.render v ++ x) = Json.render v ++ x := by
  obtain ⟨c, t, heq, hws, -, -⟩ := render_head v
  rw [heq]
  simp [skipJsonWs, List.dropWhile_cons, hws]

theorem dictUpsert_fresh (d : List (List Nat × Json)) (k : List Nat) (v : Json)
    (h : ∀ kv ∈ d, kv.1 ≠ k) : dictUpsert d k v = d ++ [(k, v)] := by
  induction d with
  | nil => rfl
  | cons kv0 d ih =>
      obtain ⟨k0, v0⟩ := kv0
      unfold dictUpsert
      rw [if_neg (h (k0, v0) (by simp))]
      rw [ih (fun kv hkv => h kv (by simp [hkv]))]
      simp

theorem keysNodup_cons (k : List Nat) (v : Json) (ms : List (List Nat × Json))
    (h : keysNodup ((k, v) :: ms) = true) :
    keysNodup ms = true ∧ ∀ kv ∈ ms, kv.1 ≠ k := by
  unfold keysNodup at h
  rw [Bool.and_eq_true, Bool.not_eq_true'] at h
  refine ⟨h.2, fun kv hkv hk => ?_⟩
  have := List.any_eq_false.mp h.1 kv hkv
  simp only [decide_eq_true_eq] at this
  exact this hk

theorem dictify_go (ms : List (List Nat × Json)) :
    ∀ d : List (List Nat × Json), keysNodup ms = true →
      (∀ kv ∈ ms, ∀ kv2 ∈ d, kv2.1 ≠ kv.1) →
      ms.foldl (fun d0 kv => dictUpsert d0 kv.1 kv.2) d = d ++ ms := by
  induction ms with
  | nil =>
      intro d _ _
      simp
  | cons kv ms ih =>
      intro d hnd hdisj
      obtain ⟨k, v⟩ := kv
      obtain ⟨hnd2, hfresh⟩ := keysNodup_cons k v ms hnd
      simp only [List.foldl_cons]
      rw [dictUpsert_fresh d k v (fun kv2 h2 => hdisj (k, v) (by simp) kv2 h2)]
      rw [ih (d ++ [(k, v)]) hnd2 ?_]
      · simp
      · intro kv1 h1 kv2 h2
        rw [List.mem_append] at h2
        rcases h2 with h2 | h2
        · exact hdisj kv1 (by simp [h1]) kv2 h2
        · simp at h2
          rw [h2]
          exact fun hc => hfresh kv1 h1 hc.symm

theorem dictify_nodup (ms : List (List Nat × Json)) (h : keysNodup ms = true) :
    dictify ms = ms := by
  unfold dictify
  rw [dictify_go ms [] h (by intro kv _ kv2 h2; simp at h2)]
  simp

theorem okPayloadList_cons (e : Json) (es : List Json)
    (h : Json.okPayloadList (e :: es) = true) :
    Json.okPayload e = true ∧ Json.okPayloadList es = true := by
  unfold Json.okPayloadList at h
  rwa [Bool.and_eq_true] at h

theorem okPayloadMembers_cons (k : List Nat) (v : Json) (ms : List (List Nat × Json))
    (h : Json.okPayloadMembers ((k, v) :: ms) = true) :
    okStr k = true ∧ Json.okPayload v = true ∧ Json.okPayloadMembers ms = true := by
  unfold Json.okPayloadMembers at h
  rw [Bool.and_eq_true, Bool.and_eq_true] at h
  exact ⟨h.1.1, h.1.2, h.2⟩

theorem okPayload_obj (ms : List (List Nat × Json))
    (h : Json.okPayload (Json.obj ms) = true) :
    keysNodup ms = true ∧ Json.okPayloadMembers ms = true := by
  unfold Json.okPayload at h
  rwa [Bool.and_eq_true] at h

theorem parseVal_num_step (f : Nat) (c : Nat) (tail : List Nat)
    (hd : c = 45 ∨ (48 ≤ c ∧ c ≤ 57)) :
    parseVal (f + 1) (c :: tail)
      = (match parseNum (c :: tail) with
         | .ok (n, rest2) => .ok (Json.num n, rest2)
         | .error e => .error e) := by
  have hws : jsonWs c = false := by
    unfold jsonWs
    simp only [Bool.or_eq_false_iff, decide_eq_false_iff_not]
    omega
  rw [parseVal.eq_def]
  split
  · omega
  · rename_i fuel heq0
    have hf : fuel = f := by omega
    subst hf
    rw [show skipJsonWs (c :: tail) = c :: tail from by
      simp [skipJsonWs, List.dropWhile_cons, hws]]
    split
    · rename_i heq2
      simp only [List.cons.injEq] at heq2
      omega
    · rename_i heq2
      simp only [List.cons.injEq] at heq2
      omega
    · rename_i heq2
      simp only [List.cons.injEq] at heq2
      omega
    · rename_i heq2
      simp only [List.cons.injEq] at heq2
      omega
    · rename_i heq2
      simp only [List.cons.injEq] at heq2
      omega
    · rename_i heq2
      simp only [List.cons.injEq] at heq2
      omega
    · rename_i heq2
      simp only [List.cons.injEq] at heq2
      obtain ⟨h1, h2⟩ := heq2
      subst h1
      subst h2
      rw [if_pos (by rw [Bool.or_eq_true]; rcases hd with h | h
                     · left; rw [decide_eq_true_eq]; omega
                     · right; rw [Bool.and_eq_true, decide_eq_true_eq, decide_eq_true_eq]
                       omega)]
    · rename_i heq2
      simp at heq2

theorem parseVal_arr_step (f : Nat) (inner rest : List Nat) (c : Nat) (t : List Nat)
    (hshape : inner = c :: t) (hws : jsonWs c = false) (h93 : c ≠ 93) :
    parseVal (f + 1) (91 :: (inner ++ 93 :: rest))
      = (match parseItems f (inner ++ 93 :: rest) with
         | .ok (es, rest2) => .ok (Json.arr es, rest2)
         | .error e => .error e) := by
  rw [parseVal.eq_def]
  split
  · omega
  · rename_i fuel heq0
    have hf : fuel = f := by omega
    subst hf
    rw [show skipJsonWs (91 :: (inner ++ 93 :: rest)) = 91 :: (inner ++ 93 :: rest) from by
      simp [skipJsonWs, List.dropWhile_cons, jsonWs]]
    subst hshape
    simp only [List.cons_append]
    rw [show skipJsonWs (c :: (t ++ 93 :: rest)) = c :: (t ++ 93 :: rest) from by
      simp [skipJsonWs, List.dropWhile_cons, hws]]
    split
    · rename_i heq2
      simp only [List.cons.injEq] at heq2
      exact absurd heq2.1 h93
    · rfl

mutual
/-- Parsing the rendered form of a payload value recovers it exactly. -/
theorem rt_val : ∀ (v : Json) (fuel : Nat) (rest : List Nat),
    Json.okPayload v = true → (Json.render v).length < fuel → numBreak rest = true →
    parseVal fuel (Json.render v ++ rest) = .ok (v, rest)
  | .null, fuel, rest, hok, hf, hbr => by
      cases fuel with
      | zero => exact absurd hf (by omega)
      | succ f =>
          show parseVal (f + 1) (110 :: 117 :: 108 :: 108 :: rest) = .ok (.null, rest)
          simp [parseVal, skipJsonWs, List.dropWhile_cons, jsonWs]
  | .bool true, fuel, rest, hok, hf, hbr => by
      cases fuel with
      | zero => exact absurd hf (by omega)
      | succ f =>
          show parseVal (f + 1) (116 :: 114 :: 117 :: 101 :: rest) = .ok (.bool true, rest)
          simp [parseVal, skipJsonWs, List.dropWhile_cons, jsonWs]
  | .bool false, fuel, rest, hok, hf, hbr => by
      cases fuel with
      | zero => exact absurd hf (by omega)
      | succ f =>
          show parseVal (f + 1) (102 :: 97 :: 108 :: 115 :: 101 :: rest) = .ok (.bool false, rest)
          simp [parseVal, skipJsonWs, List.dropWhile_cons, jsonWs]
  | .num n, fuel, rest, hok, hf, hbr => by
      cases fuel with
      | zero => exact absurd hf (by omega)
      | succ f =>
          by_cases hneg : n < 0
          · have hsh : Json.render (.num n) ++ rest
                = 45 :: (natDecimal n.natAbs ++ rest) := by
              show intDecimal n ++ rest = _
              unfold intDecimal
              rw [if_pos hneg]
              simp
            rw [hsh, parseVal_num_step f 45 _ (Or.inl rfl), ← List.cons_append,
              show (45 :: natDecimal n.natAbs) = intDecimal n from by
                unfold intDecimal
                rw [if_pos hneg]
                rfl,
              parseNum_intDecimal n rest hbr]
          · obtain ⟨c, t, heq, h48, h57, -⟩ := natDecimal_head n.natAbs
            have hsh : Json.render (.num n) ++ rest = c :: (t ++ rest) := by
              show intDecimal n ++ rest = _
              unfold intDecimal
              rw [if_neg hneg, List.nil_append, heq]
              simp
            rw [hsh, parseVal_num_step f c _ (Or.inr ⟨h48, h57⟩), ← List.cons_append, ← heq,
              show natDecimal n.natAbs = intDecimal n from by
                unfold intDecimal
                rw [if_neg hneg, List.nil_append],
              parseNum_intDecimal n rest hbr]
  | .str s, fuel, rest, hok, hf, hbr => by
      cases fuel with
      | zero => exact absurd hf (by omega)
      | succ f =>
          have hkok : okStr s = true := by
            unfold Json.okPayload at hok
            exact hok
          have hsh : Json.render (.str s) ++ rest
              = 34 :: (s.flatMap escapeChar ++ 34 :: rest) := by
            show (34 :: (s.flatMap escapeChar ++ [34])) ++ rest = _
            simp
          rw [hsh]
          show (match parseStr (s.flatMap escapeChar ++ 34 :: rest) with
                | .ok (s2, rest2) => Except.ok (Json.str s2, rest2)
                | .error e => Except.error e)
              = Except.ok (Json.str s, rest)
          rw [parseStr_escape s rest hkok]
  | .arr [], fuel, rest, hok, hf, hbr => by
      cases fuel with
      | zero => exact absurd hf (by omega)
      | succ f =>
          show parseVal (f + 1) (91 :: 93 :: rest) = .ok (.arr [], rest)
          simp [parseVal, skipJsonWs, List.dropWhile_cons, jsonWs]
  | .arr (e :: es), fuel, rest, hok, hf, hbr => by
      cases fuel with
      | zero => exact absurd hf (by omega)
      | succ f =>
          have hok2 : Json.okPayloadList (e :: es) = true := by
            unfold Json.okPayload at hok
            exact hok
          obtain ⟨c, t, hec, hws, h93, -⟩ := render_head e
          have hsh : Json.render (.arr (e :: es)) ++ rest
              = 91 :: (Json.renderItems (e :: es) ++ 93 :: rest) := by
            show (91 :: (Json.renderItems (e :: es) ++ [93])) ++ rest = _
            simp
          have hitems_shape : Json.renderItems (e :: es)
              = c :: (t ++ Json.renderItemsTail es) := by
            show Json.render e ++ Json.renderItemsTail es = _
            rw [hec]
            simp
          have hlenr : (Json.render (.arr (e :: es))).length
              = (Json.renderItems (e :: es)).length + 2 := by
            show (91 :: (Json.renderItems (e :: es) ++ [93])).length = _
            simp
          rw [hsh, parseVal_arr_step f _ rest c (t ++ Json.renderItemsTail es)
              hitems_shape hws h93,
            rt_items e es f rest hok2 (by omega)]
  | .obj [], fuel, rest, hok, hf, hbr => by
      cases fuel with
      | zero => exact absurd hf (by omega)
      | succ f =>
          show parseVal (f + 1) (123 :: 125 :: rest) = .ok (.obj [], rest)
          simp [parseVal, skipJsonWs, List.dropWhile_cons, jsonWs]
  | .obj ((k, v) :: ms), fuel, rest, hok, hf, hbr => by
      cases fuel with
      | zero => exact absurd hf (by omega)
      | succ f =>
          obtain ⟨hnd, hmem⟩ := okPayload_obj ((k, v) :: ms) hok
          have hsh : Json.render (.obj ((k, v) :: ms)) ++ rest
              = 123 :: (Json.renderMembers ((k, v) :: ms) ++ 125 :: rest) := by
            show (123 :: (Json.renderMembers ((k, v) :: ms) ++ [125])) ++ rest = _
            simp
          have hlenr : (Json.render (.obj ((k, v) :: ms))).length
              = (Json.renderMembers ((k, v) :: ms)).length + 2 := by
            show (123 :: (Json.renderMembers ((k, v) :: ms) ++ [125])).length = _
            simp
          rw [hsh]
          rw [show parseVal (f + 1)
                (123 :: (Json.renderMembers ((k, v) :: ms) ++ 125 :: rest))
              = (match parseMembers f (Json.renderMembers ((k, v) :: ms) ++ 125 :: rest) with
                 | .ok (ms2, rest2) => Except.ok (Json.obj (dictify ms2), rest2)
                 | .error e => Except.error e) from by
            rw [show Json.renderMembers ((k, v) :: ms)
                = 34 :: ((k.flatMap escapeChar ++ [34])
                    ++ 58 :: (Json.render v ++ Json.renderMembersTail ms)) from rfl]
            simp [parseVal, skipJsonWs, List.dropWhile_cons, jsonWs]]
          rw [rt_members (k, v) ms f rest hmem (by omega)]
          show Except.ok (Json.obj (dictify ((k, v) :: ms)), rest)
              = Except.ok (Json.obj ((k, v) :: ms), rest)
          rw [dictify_nodup _ hnd]
termination_by v _ _ _ _ _ => sizeOf v

/-- Parsing the rendered form of a nonempty element list up to the closing
bracket recovers the elements. -/
theorem rt_items : ∀ (e : Json) (es : List Json) (fuel : Nat) (rest : List Nat),
    Json.okPayloadList (e :: es) = true →
    (Json.renderItems (e :: es)).length + 1 < fuel →
    parseItems fuel (Json.renderItems (e :: es) ++ 93 :: rest) = .ok (e :: es, rest)
  | e, es, fuel, rest, hok, hf => by
      obtain ⟨hoke, hokes⟩ := okPayloadList_cons e es hok
      cases fuel with
      | zero => exact absurd hf (by omega)
      | succ f =>
          cases es with
          | nil =>
              have hsh : Json.renderItems [e] ++ 93 :: rest
                  = Json.render e ++ 93 :: rest := by
                show (Json.render e ++ Json.renderItemsTail []) ++ 93 :: rest = _
                show (Json.render e ++ []) ++ 93 :: rest = _
                simp
              have hlen : (Json.renderItems [e]).length = (Json.render e).length := by
                show (Json.render e ++ Json.renderItemsTail []).length = _
                show (Json.render e ++ []).length = _
                simp
              rw [show parseItems (f + 1) (Json.renderItems [e] ++ 93 :: rest)
                  = (match parseVal f (Json.renderItems [e] ++ 93 :: rest) with
                     | .error e2 => Except.error e2
                     | .ok (v, rest1) =>
                       match skipJsonWs rest1 with
                       | 44 :: rest2 =>
                         (match parseItems f rest2 with
                          | .ok (vs, rest3) => Except.ok (v :: vs, rest3)
                          | .error e2 => Except.error e2)
                       | 93 :: rest2 => Except.ok ([v], rest2)
                       | _ => Except.error ()) from rfl]
              rw [hsh, rt_val e f (93 :: rest) hoke (by omega) (by rfl)]
              show Except.ok ([e], rest) = Except.ok ([e], rest)
              rfl
          | cons x xs =>
              obtain ⟨c, t, hec, -, -, -⟩ := render_head e
              have hlen1 : (Json.renderItems (e :: x :: xs)).length
                  = (Json.render e).length + 1 + (Json.renderItems (x :: xs)).length := by
                show (Json.render e ++ Json.renderItemsTail (x :: xs)).length = _
                rw [renderItemsTail_cons]
                simp
                omega
              have hepos : 1 ≤ (Json.render e).length := by
                rw [hec]
                simp
              have hsh : Json.renderItems (e :: x :: xs) ++ 93 :: rest
                  = Json.render e ++ (44 :: (Json.renderItems (x :: xs) ++ 93 :: rest)) := by
                show (Json.render e ++ Json.renderItemsTail (x :: xs)) ++ 93 :: rest = _
                rw [renderItemsTail_cons]
                simp
              rw [show parseItems (f + 1) (Json.renderItems (e :: x :: xs) ++ 93 :: rest)
                  = (match parseVal f (Json.renderItems (e :: x :: xs) ++ 93 :: rest) with
                     | .error e2 => Except.error e2
                     | .ok (v, rest1) =>
                       match skipJsonWs rest1 with
                       | 44 :: rest2 =>
                         (match parseItems f rest2 with
                          | .ok (vs, rest3) => Except.ok (v :: vs, rest3)
                          | .error e2 => Except.error e2)
                       | 93 :: rest2 => Except.ok ([v], rest2)
                       | _ => Except.error ()) from rfl]
              rw [hsh, rt_val e f (44 :: (Json.renderItems (x :: xs) ++ 93 :: rest)) hoke
                (by omega) (by rfl)]
              show (match parseItems f (Json.renderItems (x :: xs) ++ 93 :: rest) with
                    | .ok (vs, rest3) => Except.ok (e :: vs, rest3)
                    | .error e2 => Except.error e2)
                  = Except.ok (e :: x :: xs, rest)
              rw [rt_items x xs f rest hokes (by omega)]
termination_by e es _ _ _ _ => sizeOf e + sizeOf es

/-- Parsing the rendered form of a nonempty member list up to the closing
brace recovers the members. -/
theorem rt_members : ∀ (kv : List Nat × Json) (ms : List (List Nat × Json))
    (fuel : Nat) (rest : List Nat),
    Json.okPayloadMembers (kv :: ms) = true →
    (Json.renderMembers (kv :: ms)).length + 1 < fuel →
    parseMembers fuel (Json.renderMembers (kv :: ms) ++ 125 :: rest) = .ok (kv :: ms, rest)
  | (k, v), ms, fuel, rest, hok, hf => by
      obtain ⟨hkok, hvok, hmok⟩ := okPayloadMembers_cons k v ms hok
      cases fuel with
      | zero => exact absurd hf (by omega)
      | succ f =>
          have hlen1 : (Json.renderMembers ((k, v) :: ms)).length
              = (k.flatMap escapeChar).length + 3 + (Json.render v).length
                + (Json.renderMembersTail ms).length := by
            show ((34 :: (k.flatMap escapeChar ++ [34]))
                ++ 58 :: (Json.render v ++ Json.renderMembersTail ms)).length = _
            simp
            omega
          have hsh : Json.renderMembers ((k, v) :: ms) ++ 125 :: rest
              = 34 :: (k.flatMap escapeChar
                  ++ 34 :: (58 :: (Json.render v
                    ++ (Json.renderMembersTail ms ++ 125 :: rest)))) := by
            show ((34 :: (k.flatMap escapeChar ++ [34]))
                ++ 58 :: (Json.render v ++ Json.renderMembersTail ms)) ++ 125 :: rest = _
            simp
          rw [hsh]
          show (match parseStr (k.flatMap escapeChar
                  ++ 34 :: (58 :: (Json.render v
                    ++ (Json.renderMembersTail ms ++ 125 :: rest)))) with
                | .error e2 => Except.error e2
                | .ok (k2, rest1) =>
                  match skipJsonWs rest1 with
                  | 58 :: rest2 =>
                    (match parseVal f rest2 with
                     | .error e2 => Except.error e2
                     | .ok (v2, rest3) =>
                       match skipJsonWs rest3 with
                       | 44 :: rest4 =>
                         (match parseMembers f rest4 with
                          | .ok (ms2, rest5) => Except.ok ((k2, v2) :: ms2, rest5)
                          | .error e2 => Except.error e2)
                       | 125 :: rest4 => Except.ok ([(k2, v2)], rest4)
                       | _ => Except.error ())
                  | _ => Except.error ())
              = Except.ok ((k, v) :: ms, rest)
          rw [parseStr_escape k _ hkok]
          show (match parseVal f (Json.render v
                  ++ (Json.renderMembersTail ms ++ 125 :: rest)) with
                | .error e2 => Except.error e2
                | .ok (v2, rest3) =>
                  match skipJsonWs rest3 with
                  | 44 :: rest4 =>
                    (match parseMembers f rest4 with
                     | .ok (ms2, rest5) => Except.ok ((k, v2) :: ms2, rest5)
                     | .error e2 => Except.error e2)
                  | 125 :: rest4 => Except.ok ([(k, v2)], rest4)
                  | _ => Except.error ())
              = Except.ok ((k, v) :: ms, rest)
          cases ms with
          | nil =>
              have htl : Json.renderMembersTail ([] : List (List Nat × Json)) ++ 125 :: rest
                  = 125 :: rest := by
                show ([] : List Nat) ++ 125 :: rest = _
                simp
              rw [htl, rt_val v f (125 :: rest) hvok (by omega) (by rfl)]
              rfl
          | cons kv2 ms2 =>
              have hlen2 : (Json.renderMembersTail (kv2 :: ms2)).length
                  = (Json.renderMembers (kv2 :: ms2)).length + 1 := by
                rw [renderMembersTail_cons]
                simp
              have htl : Json.renderMembersTail (kv2 :: ms2) ++ 125 :: rest
                  = 44 :: (Json.renderMembers (kv2 :: ms2) ++ 125 :: rest) := by
                rw [renderMembersTail_cons]
                simp
              rw [htl, rt_val v f (44 :: (Json.renderMembers (kv2 :: ms2) ++ 125 :: rest))
                hvok (by omega) (by rfl)]
              show (match parseMembers f (Json.renderMembers (kv2 :: ms2) ++ 125 :: rest) with
                    | .ok (ms3, rest5) => Except.ok ((k, v) :: ms3, rest5)
                    | .error e2 => Except.error e2)
                  = Except.ok ((k, v) :: kv2 :: ms2, rest)
              rw [rt_members kv2 ms2 f rest hmok (by omega)]
termination_by kv ms _ _ _ _ => sizeOf kv + sizeOf ms
end

theorem hexDigit_ascii (n : Nat) (h : n < 16) : hexDigit n < 128 := by
  unfold hexDigit
  split <;> omega

theorem uEscape_ascii (u : Nat) : ∀ b ∈ uEscape u, b < 128 := by
  intro b hb
  unfold uEscape at hb
  simp only [List.mem_cons, List.not_mem_nil, or_false] at hb
  rcases hb with h | h | h | h | h | h <;> subst h
  · omega
  · omega
  · exact hexDigit_ascii _ (by omega)
  · exact hexDigit_ascii _ (by omega)
  · exact hexDigit_ascii _ (by omega)
  · exact hexDigit_ascii _ (by omega)

theorem escapeChar_ascii (c : Nat) : ∀ b ∈ escapeChar c, b < 128 := by
  intro b hb
  unfold escapeChar at hb
  split_ifs at hb <;>
    first
      | (simp only [List.mem_cons, List.not_mem_nil, or_false] at hb; omega)
      | exact uEscape_ascii _ _ hb
      | (rcases List.mem_append.mp hb with h | h <;> exact uEscape_ascii _ _ h)

theorem intDecimal_ascii (i : Int) : ∀ b ∈ intDecimal i, b < 128 := by
  intro b hb
  unfold intDecimal at hb
  rcases List.mem_append.mp hb with h | h
  · split at h
    · simp only [List.mem_cons, List.not_mem_nil, or_false] at h
      omega
    · simp at h
  · have := natDecimal_digits i.natAbs b h
    omega

mutual
/-- `json.dumps` output (with the default `ensure_ascii=True`) is pure ASCII. -/
theorem render_ascii : ∀ (v : Json), ∀ b ∈ Json.render v, b < 128
  | .null, b, hb => by
      have hb2 : b ∈ [110, 117, 108, 108] := hb
      simp only [List.mem_cons, List.not_mem_nil, or_false] at hb2
      omega
  | .bool true, b, hb => by
      have hb2 : b ∈ [116, 114, 117, 101] := hb
      simp only [List.mem_cons, List.not_mem_nil, or_false] at hb2
      omega
  | .bool false, b, hb => by
      have hb2 : b ∈ [102, 97, 108, 115, 101] := hb
      simp only [List.mem_cons, List.not_mem_nil, or_false] at hb2
      omega
  | .num n, b, hb => intDecimal_ascii n b hb
  | .str s, b, hb => by
      have hb2 : b ∈ 34 :: (s.flatMap escapeChar ++ [34]) := hb
      rcases List.mem_cons.mp hb2 with h | h
      · omega
      · rcases List.mem_append.mp h with h | h
        · obtain ⟨c, -, hbc⟩ := List.mem_flatMap.mp h
          exact escapeChar_ascii c b hbc
        · simp only [List.mem_cons, List.not_mem_nil, or_false] at h
          omega
  | .arr es, b, hb => by
      have hb2 : b ∈ 91 :: (Json.renderItems es ++ [93]) := hb
      rcases List.mem_cons.mp hb2 with h | h
      · omega
      · rcases List.mem_append.mp h with h | h
        · exact renderItems_ascii es b h
        · simp only [List.mem_cons, List.not_mem_nil, or_false] at h
          omega
  | .obj ms, b, hb => by
      have hb2 : b ∈ 123 :: (Json.renderMembers ms ++ [125]) := hb
      rcases List.mem_cons.mp hb2 with h | h
      · omega
      · rcases List.mem_append.mp h with h | h
        · exact renderMembers_ascii ms b h
        · simp only [List.mem_cons, List.not_mem_nil, or_false] at h
          omega

/-- Rendered array elements are pure ASCII. -/
theorem renderItems_ascii : ∀ (es : List Json), ∀ b ∈ Json.renderItems es, b < 128
  | [], b, hb => absurd hb (by simp [Json.renderItems])
  | e :: es, b, hb => by
      have hb2 : b ∈ Json.render e ++ Json.renderItemsTail es := hb
      rcases List.mem_append.mp hb2 with h | h
      · exact render_ascii e b h
      · exact renderItemsTail_ascii es b h

/-- Rendered array continuations are pure ASCII. -/
theorem renderItemsTail_ascii : ∀ (es : List Json), ∀ b ∈ Json.renderItemsTail es, b < 128
  | [], b, hb => absurd hb (by simp [Json.renderItemsTail])
  | e :: es, b, hb => by
      have hb2 : b ∈ 44 :: (Json.render e ++ Json.renderItemsTail es) := hb
      rcases List.mem_cons.mp hb2 with h | h
      · omega
      · rcases List.mem_append.mp h with h | h
        · exact render_ascii e b h
        · exact renderItemsTail_ascii es b h

/-- Rendered object members are pure ASCII. -/
theorem renderMembers_ascii :
    ∀ (ms : List (List Nat × Json)), ∀ b ∈ Json.renderMembers ms, b < 128
  | [], b, hb => absurd hb (by simp [Json.renderMembers])
  | (k, v) :: ms, b, hb => by
      have hb2 : b ∈ (34 :: (k.flatMap escapeChar ++ [34]))
          ++ 58 :: (Json.render v ++ Json.renderMembersTail ms) := hb
      rcases List.mem_append.mp hb2 with h | h
      · rcases List.mem_cons.mp h with h | h
        · omega
        · rcases List.mem_append.mp h with h | h
          · obtain ⟨c, -, hbc⟩ := List.mem_flatMap.mp h
            exact escapeChar_ascii c b hbc
          · simp only [List.mem_cons, List.not_mem_nil, or_false] at h
            omega
      · rcases List.mem_cons.mp h with h | h
        · omega
        · rcases List.mem_append.mp h with h | h
          · exact render_ascii v b h
          · exact renderMembersTail_ascii ms b h

/-- Rendered object continuations are pure ASCII. -/
theorem renderMembersTail_ascii :
    ∀ (ms : List (List Nat × Json)), ∀ b ∈ Json.renderMembersTail ms, b < 128
  | [], b, hb => absurd hb (by simp [Json.renderMembersTail])
  | (k, v) :: ms, b, hb => by
      have hb2 : b ∈ 44 :: ((34 :: (k.flatMap escapeChar ++ [34]))
          ++ 58 :: (Json.render v ++ Json.renderMembersTail ms)) := hb
      rcases List.mem_cons.mp hb2 with h | h
      · omega
      · exact renderMembers_ascii ((k, v) :: ms) b (by exact h)
end

theorem utf8EncodeChar_ascii (c : Nat) (h : c < 128) : utf8EncodeChar c = [c] := by
  unfold utf8EncodeChar
  rw [if_pos h]

theorem utf8Encode_ascii : ∀ (s : List Nat), (∀ b ∈ s, b < 128) → utf8Encode s = s
  | [], _ => rfl
  | c :: t, h => by
      show utf8EncodeChar c ++ utf8Encode t = c :: t
      rw [utf8EncodeChar_ascii c (h c (by simp)),
        utf8Encode_ascii t (fun b hb => h b (by simp [hb]))]
      rfl

theorem utf8Decode_ascii_step (c : Nat) (t : List Nat) (hc : c < 128) :
    utf8Decode (c :: t) = (utf8Decode t).map (fun l => c :: l) := by
  match t with
  | [] =>
    change (if c < 128 then (utf8Decode ([] : List Nat)).map (fun l => c :: l)
        else if 194 ≤ c && c ≤ 223 then none
        else if 224 ≤ c && c ≤ 239 then none
        else if 240 ≤ c && c ≤ 244 then none
        else none) = (utf8Decode ([] : List Nat)).map (fun l => c :: l)
    rw [if_pos hc]
  | [b1] =>
    change (if c < 128 then (utf8Decode [b1]).map (fun l => c :: l)
        else if 194 ≤ c && c ≤ 223 then
          (if utf8Cont b1 then
            (utf8Decode ([] : List Nat)).map (fun l => ((c - 192) * 64 + (b1 - 128)) :: l)
          else none)
        else if 224 ≤ c && c ≤ 239 then none
        else if 240 ≤ c && c ≤ 244 then none
        else none) = (utf8Decode [b1]).map (fun l => c :: l)
    rw [if_pos hc]
  | [b1, b2] =>
    change (if c < 128 then (utf8Decode [b1, b2]).map (fun l => c :: l)
        else if 194 ≤ c && c ≤ 223 then
          (if utf8Cont b1 then
            (utf8Decode [b2]).map (fun l => ((c - 192) * 64 + (b1 - 128)) :: l)
          else none)
        else if 224 ≤ c && c ≤ 239 then
          (if ((if c = 224 then 160 else 128) ≤ b1 && b1 ≤ (if c = 237 then 159 else 191))
              && utf8Cont b2 then
            (utf8Decode ([] : List Nat)).map
              (fun l => ((c - 224) * 4096 + (b1 - 128) * 64 + (b2 - 128)) :: l)
          else none)
        else if 240 ≤ c && c ≤ 244 then none
        else none) = (utf8Decode [b1, b2]).map (fun l => c :: l)
    rw [if_pos hc]
  | b1 :: b2 :: b3 :: t4 =>
    change (if c < 128 then (utf8Decode (b1 :: b2 :: b3 :: t4)).map (fun l => c :: l)
        else if 194 ≤ c && c ≤ 223 then
          (if utf8Cont b1 then
            (utf8Decode (b2 :: b3 :: t4)).map (fun l => ((c - 192) * 64 + (b1 - 128)) :: l)
          else none)
        else if 224 ≤ c && c ≤ 239 then
          (if ((if c = 224 then 160 else 128) ≤ b1 && b1 ≤ (if c = 237 then 159 else 191))
              && utf8Cont b2 then
            (utf8Decode (b3 :: t4)).map
              (fun l => ((c - 224) * 4096 + (b1 - 128) * 64 + (b2 - 128)) :: l)
          else none)
        else if 240 ≤ c && c ≤ 244 then
          (if ((if c = 240 then 144 else 128) ≤ b1 && b1 ≤ (if c = 244 then 143 else 191))
              && utf8Cont b2 && utf8Cont b3 then
            (utf8Decode t4).map
              (fun l =>
                ((c - 240) * 262144 + (b1 - 128) * 4096 + (b2 - 128) * 64 + (b3 - 128)) :: l)
          else none)
        else none) = (utf8Decode (b1 :: b2 :: b3 :: t4)).map (fun l => c :: l)
    rw [if_pos hc]

theorem utf8Decode_ascii : ∀ (s : List Nat), (∀ b ∈ s, b < 128) → utf8Decode s = some s
  | [], _ => rfl
  | c :: t, h => by
      rw [utf8Decode_ascii_step c t (h c (by simp)),
        utf8Decode_ascii t (fun b hb => h b (by simp [hb]))]
      rfl

theorem pyStrip_wrap (mid : List Nat) :
    pyStrip ((123 :: (mid ++ [125])) ++ [10]) = 123 :: (mid ++ [125]) := by
  unfold pyStrip
  have h1 : List.dropWhile pyIsSpace ((123 :: (mid ++ [125])) ++ [10])
      = (123 :: (mid ++ [125])) ++ [10] := by
    rw [List.cons_append, List.dropWhile_cons]
    simp [pyIsSpace]
  rw [h1]
  have h2 : ((123 :: (mid ++ [125])) ++ [10]).reverse
      = 10 :: 125 :: (mid.reverse ++ [123]) := by
    simp
  rw [h2]
  have h3 : List.dropWhile pyIsSpace (10 :: 125 :: (mid.reverse ++ [123]))
      = 125 :: (mid.reverse ++ [123]) := by
    rw [List.dropWhile_cons]
    simp only [show pyIsSpace 10 = true from rfl, if_true]
    rw [List.dropWhile_cons]
    simp [pyIsSpace]
  rw [h3]
  simp

theorem loads_render (m : PyDict) (hok : Json.okPayload (Json.obj m) = true) :
    loads (Json.render (Json.obj m)) = .ok (Json.obj m) := by
  unfold loads
  have h1 : parseVal ((Json.render (Json.obj m)).length + 1) (Json.render (Json.obj m))
      = .ok (Json.obj m, []) := by
    have h2 := rt_val (Json.obj m) ((Json.render (Json.obj m)).length + 1) [] hok
      (by omega) (by rfl)
    rwa [List.append_nil] at h2
  rw [h1]
  rfl

/-! ### Claim theorems -/

/-- C5: the Echo backend's `generate` returns the prompt unchanged, and its
`stream_tokens` yields exactly one chunk per character of the prompt, carrying
indices `0..len-1` in order, and nothing for an empty prompt. -/
theorem echo_backend_behaviour (prompt : PyStr) :
    echoGenerate prompt = prompt ∧
    (echoStreamTokens prompt).map Prod.fst = List.range prompt.length ∧
    (echoStreamTokens prompt).map Prod.snd = prompt.map (fun c => [c]) ∧
    (prompt = [] → echoStreamTokens prompt = []) := by
  refine ⟨rfl, ?_, ?_, ?_⟩
  · cases prompt with
    | nil => rfl
    | cons c p =>
        simp only [echoStreamTokens, List.isEmpty_cons, if_false, Bool.false_eq_true,
          List.map_map, List.enum]
        have h1 : (Prod.fst ∘ fun ic : Nat × Nat => (ic.1, [ic.2])) = Prod.fst := rfl
        rw [h1, enumFrom_map_fst, List.range_eq_range']
  · cases prompt with
    | nil => rfl
    | cons c p =>
        simp only [echoStreamTokens, List.isEmpty_cons, if_false, Bool.false_eq_true,
          List.map_map, List.enum]
        have h1 : (Prod.snd ∘ fun ic : Nat × Nat => (ic.1, [ic.2]))
            = (fun c : Nat => [c]) ∘ Prod.snd := rfl
        rw [h1, ← List.map_map, enumFrom_map_snd]
  · intro h
    rw [h]
    rfl

/-- C5 witness: concrete echo behaviour, including the empty prompt. -/
theorem echo_backend_behaviour_witness :
    echoGenerate (lit "ab") = lit "ab" ∧ echoStreamTokens [] = [] :=
  ⟨(echo_backend_behaviour (lit "ab")).1, (echo_backend_behaviour []).2.2.2 rfl⟩

/-- C6: requesting the `llama` backend resolves to the Echo backend (without
raising) whenever the llama-cpp-python import failed or the model artifact
path does not exist, and any backend name other than `llama` or `echo` also
resolves to the Echo backend.  `init_backend` is total, so no branch raises:
the one `raise` in `LlamaBackend.__init__` sits behind the availability check. -/
theorem init_backend_echo_fallback (llamaAvailable : Bool) (backend model_path : PyStr)
    (pathExists : Bool) (n_ctx n_threads : Int)
    (h : (backend = lit "llama" ∧ (llamaAvailable = false ∨ pathExists = false)) ∨
         (backend ≠ lit "llama" ∧ backend ≠ lit "echo")) :
    init_backend llamaAvailable backend model_path pathExists n_ctx n_threads
      = BackendChoice.echoChoice := by
  rcases h with ⟨hb, hcase⟩ | ⟨hb1, _⟩
  · subst hb
    rcases hcase with h1 | h1
    · simp [init_backend, h1]
    · cases llamaAvailable <;> simp [init_backend, h1]
  · simp [init_backend, hb1]

/-- C6 witness: a missing model artifact with the native backend requested, and
an unknown backend name, both at concrete inputs. -/
theorem init_backend_echo_fallback_witness :
    init_backend true (lit "llama") (lit "code-llama-7b.gguf") false 4096 4
        = BackendChoice.echoChoice ∧
    init_backend true (lit "gpt") (lit "code-llama-7b.gguf") true 4096 4
        = BackendChoice.echoChoice :=
  ⟨init_backend_echo_fallback true (lit "llama") (lit "code-llama-7b.gguf") false 4096 4
      (Or.inl ⟨rfl, Or.inr rfl⟩),
   init_backend_echo_fallback true (lit "gpt") (lit "code-llama-7b.gguf") true 4096 4
      (Or.inr ⟨by decide, by decide⟩)⟩

/-- C2: a streaming completion writes zero or more `token` messages whose
indices are exactly `0..n-1` in increasing order (the enumeration of the
fragment list), followed by exactly one `completion` message whose envelope
output is the in-order concatenation of all emitted fragments. -/
theorem stream_completion_discipline (mm : ModelManager) (prompt : PyStr) (params : PyDict) :
    ∃ frags : List PyStr,
      streamCompletion mm prompt params
        = ((List.range frags.length).zip frags).map (fun it => msgToken it.1 it.2)
          ++ [msgCompletion (formatResult mm prompt params frags.flatten)] := by
  obtain ⟨frags, hfr⟩ : ∃ frags : List PyStr, mmStreamTokens mm prompt = frags.enum := by
    cases hb : mm.backend with
    | echo =>
        by_cases hp : prompt.isEmpty
        · exact ⟨[], by simp [mmStreamTokens, hb, Backend.streamTokens, echoStreamTokens, hp]⟩
        · refine ⟨prompt.map (fun c => [c]), ?_⟩
          simp only [mmStreamTokens, hb, Backend.streamTokens, echoStreamTokens, hp,
            if_false, Bool.false_eq_true, List.enum]
          rw [enumFrom_map_pair]
    | llama packets oneShot =>
        exact ⟨packets, by simp [mmStreamTokens, hb, Backend.streamTokens, llamaStreamSync]⟩
  refine ⟨frags, ?_⟩
  simp only [streamCompletion, hfr]
  rw [List.enum_eq_zip_range]
  congr 1
  have hsnd : (((List.range frags.length).zip frags).map (fun c => c.2)) = frags := by
    rw [← List.enum_eq_zip_range, List.enum]
    exact enumFrom_map_snd 0 frags
  rw [hsnd]

/-- C3: dispatch sends `pong` when the request's `type` is `"ping"`, replies
`error{unknown_request}` when `type` is present (any stored value, a JSON null
included) and is neither `"ping"` nor `"completion"`, and enters the completion
flow when `type` is `"completion"` or absent. -/
theorem process_request_dispatch (mm : ModelManager) (kvs : PyDict) :
    (pyGetOpt kvs (lit "type") = some (Json.str (lit "ping")) →
       processRequest mm (Json.obj kvs) = .ok [msgPong]) ∧
    (∀ v, pyGetOpt kvs (lit "type") = some v →
       v ≠ Json.str (lit "ping") → v ≠ Json.str (lit "completion") →
       processRequest mm (Json.obj kvs) = .ok [msgError "unknown_request"]) ∧
    ((pyGetOpt kvs (lit "type") = some (Json.str (lit "completion")) ∨
        pyGetOpt kvs (lit "type") = none) →
       processRequest mm (Json.obj kvs) = handleCompletion mm kvs) := by
  refine ⟨?_, ?_, ?_⟩
  · intro h
    simp [processRequest, pyGetD, h]
  · intro v h hping hcompl
    simp [processRequest, pyGetD, h, hping, hcompl]
  · have h1 : Json.str (lit "completion") ≠ Json.str (lit "ping") := by decide
    rintro (h | h) <;> simp [processRequest, pyGetD, h, h1]

/-- C3 witness: the three dispatch outcomes at concrete requests. -/
theorem process_request_dispatch_witness :
    processRequest mmEcho (Json.obj [(lit "type", Json.str (lit "ping"))]) = .ok [msgPong] ∧
    processRequest mmEcho (Json.obj [(lit "type", Json.str (lit "bogus"))])
        = .ok [msgError "unknown_request"] ∧
    processRequest mmEcho (Json.obj [(lit "prompt", Json.str (lit "hi"))])
        = handleCompletion mmEcho [(lit "prompt", Json.str (lit "hi"))] :=
  ⟨(process_request_dispatch mmEcho [(lit "type", Json.str (lit "ping"))]).1 (by decide),
   (process_request_dispatch mmEcho [(lit "type", Json.str (lit "bogus"))]).2.1
      (Json.str (lit "bogus")) (by decide) (by decide) (by decide),
   (process_request_dispatch mmEcho [(lit "prompt", Json.str (lit "hi"))]).2.2
      (Or.inr (by decide))⟩

/-- C4: the effective `stream` boolean of a completion request resolves with
the explicit top-level `stream` field (a boolean, per the request data model)
taking priority, then `params.stream`, then the default `true`; and the
`stream` key is absent from the params map passed onward on every path. -/
theorem stream_resolution_priority (request : PyDict) (ps : PyDict)
    (sb pb : Option Bool)
    (hreq : pyGetOpt request (lit "stream") = sb.map Json.bool)
    (hps : extractParams request = .ok ps)
    (hpb : pyGetOpt ps (lit "stream") = pb.map Json.bool) :
    resolveStreamParams (pyGet request (lit "stream")) ps
        = (sb.getD (pb.getD true), dictPopKey ps (lit "stream")) ∧
    pyGetOpt (dictPopKey ps (lit "stream")) (lit "stream") = none := by
  refine ⟨?_, pyGetOpt_dictPopKey_self ps (lit "stream")⟩
  cases sb with
  | none =>
      have hflag : pyGet request (lit "stream") = Json.null := by
        simp [pyGet, hreq]
      rw [hflag]
      simp only [resolveStreamParams, if_pos rfl, Option.getD_none]
      cases pb with
      | none => simp [pyGetD, hpb, truthy]
      | some c => simp [pyGetD, hpb, truthy]
  | some b =>
      have hflag : pyGet request (lit "stream") = Json.bool b := by
        simp [pyGet, hreq]
      rw [hflag]
      have hne : Json.bool b ≠ Json.null := by cases b <;> decide
      simp [resolveStreamParams, hne, truthy]

/-- C4 witness: an explicit `stream: false` wins over `params.stream: true`,
and the `stream` key is stripped from the params passed onward. -/
theorem stream_resolution_priority_witness :
    resolveStreamParams
        (pyGet [(lit "stream", Json.bool false),
                (lit "params", Json.obj [(lit "stream", Json.bool true),
                                         (lit "max_tokens", Json.num 8)])] (lit "stream"))
        [(lit "stream", Json.bool true), (lit "max_tokens", Json.num 8)]
      = (false, [(lit "max_tokens", Json.num 8)]) ∧
    pyGetOpt (dictPopKey [(lit "stream", Json.bool true), (lit "max_tokens", Json.num 8)]
        (lit "stream")) (lit "stream") = none := by
  have h := stream_resolution_priority
    [(lit "stream", Json.bool false),
     (lit "params", Json.obj [(lit "stream", Json.bool true), (lit "max_tokens", Json.num 8)])]
    [(lit "stream", Json.bool true), (lit "max_tokens", Json.num 8)]
    (some false) (some true) (by decide) (by decide) (by decide)
  refine ⟨?_, h.2⟩
  rw [h.1]
  decide

/-- C10: a top-level `stream` of JSON null is treated exactly as an absent
field (CPython's `dict.get` collapses both to `None`, so resolution falls
through to `params.stream` and then the default), while any present non-null
value decides streaming by Python truthiness — e.g. the string `"false"` is
truthy and enables streaming. -/
theorem stream_null_and_truthiness (request : PyDict) (v : Json)
    (hv : pyGetOpt request (lit "stream") = some v) :
    (v = Json.null →
      ∀ ps, resolveStreamParams (pyGet request (lit "stream")) ps
          = resolveStreamParams
              (pyGet (dictPopKey request (lit "stream")) (lit "stream")) ps) ∧
    (v ≠ Json.null →
      ∀ ps, (resolveStreamParams (pyGet request (lit "stream")) ps).1 = truthy v) := by
  have hflag : pyGet request (lit "stream") = v := by simp [pyGet, hv]
  constructor
  · intro hnull ps
    have habs : pyGet (dictPopKey request (lit "stream")) (lit "stream") = Json.null := by
      simp [pyGet, pyGetOpt_dictPopKey_self]
    rw [hflag, hnull, habs]
  · intro hnn ps
    rw [hflag]
    simp [resolveStreamParams, hnn]

/-- C10 witness: `stream: null` with `params.stream: false` disables
streaming (the null falls through to the params alias), and `stream: "false"`
enables it (non-empty strings are truthy). -/
theorem stream_null_and_truthiness_witness :
    resolveStreamParams (pyGet [(lit "stream", Json.null)] (lit "stream"))
        [(lit "stream", Json.bool false)]
      = resolveStreamParams
          (pyGet (dictPopKey [(lit "stream", Json.null)] (lit "stream")) (lit "stream"))
          [(lit "stream", Json.bool false)] ∧
    (resolveStreamParams (pyGet [(lit "stream", Json.str (lit "false"))] (lit "stream"))
        []).1 = true := by
  constructor
  · exact (stream_null_and_truthiness [(lit "stream", Json.null)] Json.null (by decide)).1
      rfl [(lit "stream", Json.bool false)]
  · have h := (stream_null_and_truthiness [(lit "stream", Json.str (lit "false"))]
      (Json.str (lit "false")) (by decide)).2 (by decide) []
    rw [h]
    decide

/-- The heap cell layout after appending a copy: existing cells are untouched. -/
theorem getElem_append_copy {α : Type} (l : List α) (a : α) (i : Nat) (hi : i < l.length) :
    (l ++ [a])[i]? = l[i]? := by
  rw [List.getElem?_append, if_pos hi]

/-- C9: the completion flow never mutates the caller's request or its params
dict: `_handle_completion` copies the params before popping `stream`, and
`ModelManager.generate` copies again before the backend call, so in the heap
model every pre-existing dict cell is unchanged by both operations. -/
theorem completion_flow_frame (heap : DictHeap) (pr : Option Nat) (sf : Json)
    (r i : Nat) (hi : i < heap.length) :
    ((heapHandleParams heap pr sf).1)[i]? = heap[i]? ∧
    ((heapGenerateCopy heap r).1)[i]? = heap[i]? := by
  constructor
  · show ((heap ++ [match pr with | some r0 => heap.getD r0 [] | none => []]).set heap.length
      (resolveStreamParams sf (match pr with | some r0 => heap.getD r0 [] | none => [])).2)[i]?
      = heap[i]?
    rw [List.getElem?_set_ne (by omega)]
    exact getElem_append_copy heap _ i hi
  · exact getElem_append_copy heap _ i hi

/-- C9 witness: a concrete two-cell heap, request params referencing cell 0;
both operations leave the pre-existing cells intact. -/
theorem completion_flow_frame_witness :
    ((heapHandleParams [[(lit "stream", Json.bool false)], []] (some 0) Json.null).1)[0]?
        = some [(lit "stream", Json.bool false)] ∧
    ((heapGenerateCopy [[(lit "stream", Json.bool false)], []] 0).1)[1]? = some [] := by
  have h0 := completion_flow_frame [[(lit "stream", Json.bool false)], []] (some 0)
    Json.null 0 0 (by decide)
  have h1 := completion_flow_frame [[(lit "stream", Json.bool false)], []] (some 0)
    Json.null 0 1 (by decide)
  exact ⟨by rw [h0.1]; decide, by rw [h1.2]; decide⟩

/-- The invariant holds initially. -/
theorem loadInv_init : LoadInv loadInit := by
  refine ⟨by decide, by simp [loadInit], ?_, ?_, ?_, ?_, ?_⟩ <;>
    intro t <;> simp [loadInit]

/-- Case analysis for a program-counter read after an update. -/
theorem update_pc_cases {pcs : Nat → LoadPC} {t t2 : Nat} {newpc p : LoadPC}
    (h : Function.update pcs t newpc t2 = p) :
    (t2 = t ∧ newpc = p) ∨ (t2 ≠ t ∧ pcs t2 = p) := by
  by_cases he : t2 = t
  · subst he
    rw [Function.update_same] at h
    exact Or.inl ⟨rfl, h⟩
  · rw [Function.update_noteq he] at h
    exact Or.inr ⟨he, h⟩

/-- The invariant is preserved by every interleaved step. -/
theorem loadInv_step (s s2 : LoadState) (hs : LoadInv s) (hstep : LoadStep s s2) :
    LoadInv s2 := by
  obtain ⟨hle, hiff, hlock, hloadnone, hunl, hret, hdone⟩ := hs
  cases hstep with
  | checkFastSome t v hpc hl =>
      refine ⟨hle, hiff, ?_, ?_, ?_, ?_, ?_⟩
      · intro t2 h2
        rcases h2 with h | h | h <;>
          rcases update_pc_cases h with ⟨_, hx⟩ | ⟨_, hx⟩ <;>
            first
              | exact hlock t2 (Or.inl hx)
              | exact hlock t2 (Or.inr (Or.inl hx))
              | exact hlock t2 (Or.inr (Or.inr hx))
              | cases hx
      · intro t2 h2
        rcases update_pc_cases h2 with ⟨_, hx⟩ | ⟨_, hx⟩
        · cases hx
        · exact hloadnone t2 hx
      · intro t2 h2
        rcases update_pc_cases h2 with ⟨_, hx⟩ | ⟨_, hx⟩
        · cases hx
        · exact hunl t2 hx
      · intro t2 h2
        rcases update_pc_cases h2 with ⟨_, hx⟩ | ⟨_, hx⟩
        · simp [hl]
        · exact hret t2 hx
      · intro t2 v2 h2
        rcases update_pc_cases h2 with ⟨_, hx⟩ | ⟨_, hx⟩
        · cases hx
        · exact hdone t2 v2 hx
  | checkFastNone t hpc hl =>
      refine ⟨hle, hiff, ?_, ?_, ?_, ?_, ?_⟩
      · intro t2 h2
        rcases h2 with h | h | h <;>
          rcases update_pc_cases h with ⟨_, hx⟩ | ⟨_, hx⟩ <;>
            first
              | exact hlock t2 (Or.inl hx)
              | exact hlock t2 (Or.inr (Or.inl hx))
              | exact hlock t2 (Or.inr (Or.inr hx))
              | cases hx
      · intro t2 h2
        rcases update_pc_cases h2 with ⟨_, hx⟩ | ⟨_, hx⟩
        · cases hx
        · exact hloadnone t2 hx
      · intro t2 h2
        rcases update_pc_cases h2 with ⟨_, hx⟩ | ⟨_, hx⟩
        · cases hx
        · exact hunl t2 hx
      · intro t2 h2
        rcases update_pc_cases h2 with ⟨_, hx⟩ | ⟨_, hx⟩
        · cases hx
        · exact hret t2 hx
      · intro t2 v2 h2
        rcases update_pc_cases h2 with ⟨_, hx⟩ | ⟨_, hx⟩
        · cases hx
        · exact hdone t2 v2 hx
  | acquire t hpc hl =>
      refine ⟨hle, hiff, ?_, ?_, ?_, ?_, ?_⟩
      · intro t2 h2
        rcases h2 with h | h | h <;>
          rcases update_pc_cases h with ⟨rfl, hx⟩ | ⟨hne, hx⟩
        · rfl
        · exact absurd (hl ▸ hlock t2 (Or.inl hx)) (by simp)
        · cases hx
        · exact absurd (hl ▸ hlock t2 (Or.inr (Or.inl hx))) (by simp)
        · cases hx
        · exact absurd (hl ▸ hlock t2 (Or.inr (Or.inr hx))) (by simp)
      · intro t2 h2
        rcases update_pc_cases h2 with ⟨_, hx⟩ | ⟨_, hx⟩
        · cases hx
        · exact hloadnone t2 hx
      · intro t2 h2
        rcases update_pc_cases h2 with ⟨_, hx⟩ | ⟨_, hx⟩
        · cases hx
        · exact hunl t2 hx
      · intro t2 h2
        rcases update_pc_cases h2 with ⟨_, hx⟩ | ⟨_, hx⟩
        · cases hx
        · exact hret t2 hx
      · intro t2 v2 h2
        rcases update_pc_cases h2 with ⟨_, hx⟩ | ⟨_, hx⟩
        · cases hx
        · exact hdone t2 v2 hx
  | checkSlowSome t v hpc hl =>
      refine ⟨hle, hiff, ?_, ?_, ?_, ?_, ?_⟩
      · intro t2 h2
        rcases h2 with h | h | h <;>
          rcases update_pc_cases h with ⟨rfl, hx⟩ | ⟨hne, hx⟩ <;>
            first
              | exact hlock t2 (Or.inl hpc)
              | exact hlock t2 (Or.inl hx)
              | exact hlock t2 (Or.inr (Or.inl hx))
              | exact hlock t2 (Or.inr (Or.inr hx))
              | cases hx
      · intro t2 h2
        rcases update_pc_cases h2 with ⟨_, hx⟩ | ⟨_, hx⟩
        · cases hx
        · exact hloadnone t2 hx
      · intro t2 h2
        rcases update_pc_cases h2 with ⟨_, hx⟩ | ⟨_, hx⟩
        · simp [hl]
        · exact hunl t2 hx
      · intro t2 h2
        rcases update_pc_cases h2 with ⟨_, hx⟩ | ⟨_, hx⟩
        · cases hx
        · exact hret t2 hx
      · intro t2 v2 h2
        rcases update_pc_cases h2 with ⟨_, hx⟩ | ⟨_, hx⟩
        · cases hx
        · exact hdone t2 v2 hx
  | checkSlowNone t hpc hl =>
      refine ⟨hle, hiff, ?_, ?_, ?_, ?_, ?_⟩
      · intro t2 h2
        rcases h2 with h | h | h <;>
          rcases update_pc_cases h with ⟨rfl, hx⟩ | ⟨hne, hx⟩ <;>
            first
              | exact hlock t2 (Or.inl hpc)
              | exact hlock t2 (Or.inl hx)
              | exact hlock t2 (Or.inr (Or.inl hx))
              | exact hlock t2 (Or.inr (Or.inr hx))
              | cases hx
      · intro t2 h2
        exact hl
      · intro t2 h2
        rcases update_pc_cases h2 with ⟨_, hx⟩ | ⟨_, hx⟩
        · cases hx
        · exact hunl t2 hx
      · intro t2 h2
        rcases update_pc_cases h2 with ⟨_, hx⟩ | ⟨_, hx⟩
        · cases hx
        · exact hret t2 hx
      · intro t2 v2 h2
        rcases update_pc_cases h2 with ⟨_, hx⟩ | ⟨_, hx⟩
        · cases hx
        · exact hdone t2 v2 hx
  | runLoad t hpc =>
      have hnone : s.llama = none := hloadnone t hpc
      have hzero : s.loads = 0 := hiff.mp hnone
      refine ⟨?_, ?_, ?_, ?_, ?_, ?_, ?_⟩
      · show s.loads + 1 ≤ 1
        omega
      · show (some s.loads = none ↔ s.loads + 1 = 0)
        constructor
        · intro hx
          cases hx
        · intro hx
          omega
      · intro t2 h2
        rcases h2 with h | h | h <;>
          rcases update_pc_cases h with ⟨rfl, hx⟩ | ⟨hne, hx⟩ <;>
            first
              | exact hlock t2 (Or.inr (Or.inl hpc))
              | exact hlock t2 (Or.inl hx)
              | exact hlock t2 (Or.inr (Or.inl hx))
              | exact hlock t2 (Or.inr (Or.inr hx))
              | cases hx
      · intro t2 h2
        rcases update_pc_cases h2 with ⟨rfl, hx⟩ | ⟨hne, hx⟩
        · cases hx
        · have h1 := hlock t2 (Or.inr (Or.inl hx))
          have h2b := hlock t (Or.inr (Or.inl hpc))
          rw [h1] at h2b
          exact absurd (Option.some.inj h2b) hne
      · intro t2 h2
        show some s.loads ≠ none
        simp
      · intro t2 h2
        show some s.loads ≠ none
        simp
      · intro t2 v2 h2
        rcases update_pc_cases h2 with ⟨rfl, hx⟩ | ⟨hne, hx⟩
        · cases hx
        · exact absurd (hdone t2 v2 hx) (by simp [hnone])
  | release t hpc hl =>
      refine ⟨hle, hiff, ?_, ?_, ?_, ?_, ?_⟩
      · intro t2 h2
        rcases h2 with h | h | h <;>
          rcases update_pc_cases h with ⟨rfl, hx⟩ | ⟨hne, hx⟩ <;>
            first
              | exact absurd (Option.some.inj ((hlock t2 (Or.inl hx)).symm.trans hl)) hne
              | exact absurd
                  (Option.some.inj ((hlock t2 (Or.inr (Or.inl hx))).symm.trans hl)) hne
              | exact absurd
                  (Option.some.inj ((hlock t2 (Or.inr (Or.inr hx))).symm.trans hl)) hne
              | cases hx
      · intro t2 h2
        rcases update_pc_cases h2 with ⟨_, hx⟩ | ⟨_, hx⟩
        · cases hx
        · exact hloadnone t2 hx
      · intro t2 h2
        rcases update_pc_cases h2 with ⟨_, hx⟩ | ⟨_, hx⟩
        · cases hx
        · exact hunl t2 hx
      · intro t2 h2
        rcases update_pc_cases h2 with ⟨rfl, hx⟩ | ⟨_, hx⟩
        · exact hunl t2 hpc
        · exact hret t2 hx
      · intro t2 v2 h2
        rcases update_pc_cases h2 with ⟨_, hx⟩ | ⟨_, hx⟩
        · cases hx
        · exact hdone t2 v2 hx
  | returnRead t v hpc hl =>
      refine ⟨hle, hiff, ?_, ?_, ?_, ?_, ?_⟩
      · intro t2 h2
        rcases h2 with h | h | h <;>
          rcases update_pc_cases h with ⟨_, hx⟩ | ⟨_, hx⟩ <;>
            first
              | exact hlock t2 (Or.inl hx)
              | exact hlock t2 (Or.inr (Or.inl hx))
              | exact hlock t2 (Or.inr (Or.inr hx))
              | cases hx
      · intro t2 h2
        rcases update_pc_cases h2 with ⟨_, hx⟩ | ⟨_, hx⟩
        · cases hx
        · exact hloadnone t2 hx
      · intro t2 h2
        rcases update_pc_cases h2 with ⟨_, hx⟩ | ⟨_, hx⟩
        · cases hx
        · exact hunl t2 hx
      · intro t2 h2
        rcases update_pc_cases h2 with ⟨_, hx⟩ | ⟨_, hx⟩
        · cases hx
        · exact hret t2 hx
      · intro t2 v2 h2
        rcases update_pc_cases h2 with ⟨_, hx⟩ | ⟨_, hx⟩
        · cases hx
          exact hl
        · exact hdone t2 v2 hx

/-- Every reachable state satisfies the invariant. -/
theorem loadInv_reachable (s : LoadState) (h : LoadReachable s) : LoadInv s := by
  induction h with
  | init => exact loadInv_init
  | step s s2 _ hstep ih => exact loadInv_step s s2 ih hstep

/-- C8: in every reachable interleaving of `_ensure_model` callers, the heavy
`Llama(...)` constructor has run at most once, and any two threads that have
returned observed the same loaded instance. -/
theorem ensure_model_single_load (s : LoadState) (h : LoadReachable s) :
    s.loads ≤ 1 ∧
    ∀ t t2 v v2, s.pcs t = .done v → s.pcs t2 = .done v2 → v = v2 := by
  obtain ⟨hle, _, _, _, _, _, hdone⟩ := loadInv_reachable s h
  refine ⟨hle, fun t t2 v v2 h1 h2 => ?_⟩
  have hv := hdone t v h1
  have hv2 := hdone t2 v2 h2
  rw [hv] at hv2
  cases hv2
  rfl

/-- C8 witness: a concrete interleaving in which thread 0 misses the fast
path, acquires the lock, re-checks, and loads; the constructor ran exactly
once and the reached state satisfies the theorem's conclusion. -/
theorem ensure_model_single_load_witness :
    LoadReachable loadS4 ∧ loadS4.loads = 1 ∧
      (loadS4.loads ≤ 1 ∧
        ∀ t t2 v v2, loadS4.pcs t = .done v → loadS4.pcs t2 = .done v2 → v = v2) := by
  have r1 : LoadReachable loadS1 :=
    LoadReachable.step loadInit loadS1 LoadReachable.init
      (LoadStep.checkFastNone loadInit 0 rfl rfl)
  have r2 : LoadReachable loadS2 :=
    LoadReachable.step loadS1 loadS2 r1 (LoadStep.acquire loadS1 0 (by decide) rfl)
  have r3 : LoadReachable loadS3 :=
    LoadReachable.step loadS2 loadS3 r2 (LoadStep.checkSlowNone loadS2 0 (by decide) rfl)
  have r4 : LoadReachable loadS4 :=
    LoadReachable.step loadS3 loadS4 r3 (LoadStep.runLoad loadS3 0 (by decide))
  exact ⟨r4, rfl, ensure_model_single_load loadS4 r4⟩

/-- C1 counterexample: the line `42` is valid UTF-8 JSON that does not parse
to an object, yet `decode_message` succeeds on it (no object check exists), and
the handler neither replies `error{invalid_json}` nor continues — dispatch
raises `AttributeError` on the non-dict value and the connection closes, the
following `ping` line unread. -/
theorem decode_nonobject_counterexample :
    decode_message (lit "42") = .ok (Json.num 42) ∧
    (∀ kvs, Json.num 42 ≠ Json.obj kvs) ∧
    handleLines mmEcho [lit "42", lit "\x7btype\x22:\x22ping\x22\x7d"]
      = ([], ConnClose.handlerFault) := by
  refine ⟨by decide, ?_, by decide⟩
  intro kvs h
  cases h

/-- C1 (amended): `decode_message` fails exactly on lines that are not valid
UTF-8 or not parseable JSON — both failures surface as `ValueError`
(`UnicodeDecodeError` is a `ValueError` subclass, and malformed JSON is
re-raised as one) — and in every such case the handler replies
`error{invalid_json}` and keeps reading.  A line that parses to a valid JSON
non-object is returned by `decode_message` unchanged; dispatch then raises on
the missing `.get`, and the connection closes with the remaining lines
unread. -/
theorem decode_failure_recovery (mm : ModelManager) (l : List Nat) (ls : List (List Nat)) :
    ((∀ j, decode_message l ≠ .ok j) →
       handleLines mm (l :: ls)
         = (msgError "invalid_json" :: (handleLines mm ls).1, (handleLines mm ls).2)) ∧
    (∀ j, decode_message l = .ok j → (∀ kvs, j ≠ Json.obj kvs) →
       handleLines mm (l :: ls) = ([], ConnClose.handlerFault)) := by
  constructor
  · intro hfail
    cases hd : decode_message l with
    | error e => simp [handleLines, hd]
    | ok j => exact absurd hd (hfail j)
  · intro j hok hnobj
    have hpr : processRequest mm j = .error () := by
      cases j with
      | obj kvs => exact absurd rfl (hnobj kvs)
      | null => rfl
      | bool b => rfl
      | num n => rfl
      | str s => rfl
      | arr es => rfl
    simp [handleLines, hok, hpr]

/-- C1 witness: a malformed line gets `error{invalid_json}` and the connection
continues to EOF. -/
theorem decode_failure_recovery_witness :
    (∀ j, decode_message (lit "not json") ≠ .ok j) ∧
    handleLines mmEcho [lit "not json"] = ([msgError "invalid_json"], ConnClose.clientEof) := by
  have heval : decode_message (lit "not json") = .error .malformedPayload := by decide
  have hfail : ∀ j, decode_message (lit "not json") ≠ .ok j := by
    intro j h
    rw [heval] at h
    cases h
  refine ⟨hfail, ?_⟩
  have h := (decode_failure_recovery mmEcho (lit "not json") []).1 hfail
  rw [h]
  rfl

/-- C7: for every JSON-serializable mapping in the broker's data model
(integer-fragment numbers, every string free of adjacent high-low surrogate
pairs and of out-of-range code points, distinct keys per object), decoding
the bytes produced by encoding the mapping returns the same mapping.  The
claim as literally stated is refuted by `roundtrip_surrogate_counterexample`:
a string holding a lone high surrogate immediately followed by a lone low
surrogate is serializable, but re-decodes as the single combined astral
code point. -/
theorem encode_decode_roundtrip (m : PyDict)
    (hok : Json.okPayload (Json.obj m) = true) :
    decode_message (encode_message m) = .ok (Json.obj m) := by
  have hascii : ∀ b ∈ Json.render (Json.obj m) ++ [10], b < 128 := by
    intro b hb
    rcases List.mem_append.mp hb with h | h
    · exact render_ascii _ b h
    · simp only [List.mem_cons, List.not_mem_nil, or_false] at h
      omega
  have henc : encode_message m = Json.render (Json.obj m) ++ [10] :=
    utf8Encode_ascii _ hascii
  rw [henc]
  unfold decode_message
  rw [utf8Decode_ascii _ hascii]
  show (match loads (pyStrip (Json.render (Json.obj m) ++ [10])) with
        | .error _ => Except.error DecodeFailure.malformedPayload
        | .ok j => Except.ok j)
      = Except.ok (Json.obj m)
  rw [show Json.render (Json.obj m) ++ [10]
      = (123 :: (Json.renderMembers m ++ [125])) ++ [10] from rfl,
    pyStrip_wrap]
  show (match loads (Json.render (Json.obj m)) with
        | .error _ => Except.error DecodeFailure.malformedPayload
        | .ok j => Except.ok j)
      = Except.ok (Json.obj m)
  rw [loads_render m hok]

/-- C7 counterexample: a payload whose string holds a lone high surrogate
immediately followed by a lone low surrogate (both serializable by
`json.dumps` as separate escapes) does not round-trip: `json.loads`
recombines the adjacent `\uXXXX` escapes into the single astral code point
U+1D11E, so the decoded mapping differs from the encoded one. -/
theorem roundtrip_surrogate_counterexample :
    decode_message (encode_message [(lit "k", Json.str [55348, 56606])])
      = .ok (Json.obj [(lit "k", Json.str [119070])])
    ∧ Json.obj [(lit "k", Json.str [55348, 56606])]
      ≠ Json.obj [(lit "k", Json.str [119070])] := by
  constructor
  · decide
  · decide

/-- C7 witness: the amended round trip evaluated on a concrete
surrogate-free payload. -/
theorem encode_decode_roundtrip_witness :
    Json.okPayload (Json.obj [(lit "type", Json.str (lit "completion")),
        (lit "params", Json.obj [(lit "prompt", Json.str (lit "hi")),
          (lit "n", Json.num (-3))])]) = true
    ∧ decode_message (encode_message [(lit "type", Json.str (lit "completion")),
        (lit "params", Json.obj [(lit "prompt", Json.str (lit "hi")),
          (lit "n", Json.num (-3))])])
      = .ok (Json.obj [(lit "type", Json.str (lit "completion")),
        (lit "params", Json.obj [(lit "prompt", Json.str (lit "hi")),
          (lit "n", Json.num (-3))])]) :=
  ⟨by decide, encode_decode_roundtrip _ (by decide)⟩

end Broker
